import Mathlib

/-!
Verification of the MavensMate project synchronizer (`lib/mavensmate/project.js`).

The JavaScript source is shallowly embedded: filesystem-mutating code becomes
explicit state passing over a finite filesystem model (`FS`), fallible code
returns `Except`, and external collaborators (the Salesforce network client,
the metadata-type registry, the keychain) are parameters, as the spec treats
them as out of scope.  Paths are lists of path segments.
-/

set_option autoImplicit false

namespace MavensMate

/-- A filesystem path, as a list of segments (`/a/b/c` is `["a","b","c"]`). -/
abbrev FsPath := List String

/-- `pathStarts pre p` is true when `pre` is a leading segment-list of `p`
(so `p` denotes `pre` itself or something inside the directory `pre`). -/
def pathStarts : FsPath → FsPath → Bool
  | [], _ => true
  | _ :: _, [] => false
  | a :: as, b :: bs => a == b && pathStarts as bs

@[simp] theorem pathStarts_nil (p : FsPath) : pathStarts [] p = true := rfl

@[simp] theorem pathStarts_cons (a b : String) (as bs : FsPath) :
    pathStarts (a :: as) (b :: bs) = (a == b && pathStarts as bs) := rfl

theorem pathStarts_refl (p : FsPath) : pathStarts p p = true := by
  induction p with
  | nil => rfl
  | cons a as ih => simp [pathStarts, ih]

/-- `pathStarts` agrees with the existence of a suffix. -/
theorem pathStarts_iff (pre p : FsPath) :
    pathStarts pre p = true ↔ ∃ r, p = pre ++ r := by
  induction pre generalizing p with
  | nil => simp [pathStarts]
  | cons a as ih =>
    cases p with
    | nil => simp [pathStarts]
    | cons b bs =>
      simp only [pathStarts_cons, Bool.and_eq_true, beq_iff_eq, ih]
      constructor
      · rintro ⟨rfl, r, rfl⟩; exact ⟨r, rfl⟩
      · rintro ⟨r, hr⟩
        rw [List.cons_append] at hr
        injection hr with h1 h2
        exact ⟨h1.symm, r, h2⟩

theorem pathStarts_append_same (x a b : FsPath) :
    pathStarts (x ++ a) (x ++ b) = pathStarts a b := by
  induction x with
  | nil => simp
  | cons c cs ih => simp [pathStarts, ih]

theorem pathStarts_length_le {pre p : FsPath} (h : pathStarts pre p = true) :
    pre.length ≤ p.length := by
  rcases (pathStarts_iff pre p).1 h with ⟨r, rfl⟩
  simp

/-- Two leading segment-lists of the same path are comparable. -/
theorem pathStarts_total {a b p : FsPath}
    (ha : pathStarts a p = true) (hb : pathStarts b p = true) :
    pathStarts a b = true ∨ pathStarts b a = true := by
  induction a generalizing b p with
  | nil => left; rfl
  | cons x xs ih =>
    cases b with
    | nil => right; rfl
    | cons y ys =>
      cases p with
      | nil => simp [pathStarts] at ha
      | cons z zs =>
        simp only [pathStarts_cons, Bool.and_eq_true, beq_iff_eq] at ha hb
        obtain ⟨rfl, ha2⟩ := ha
        obtain ⟨rfl, hb2⟩ := hb
        rcases ih ha2 hb2 with h | h
        · left; simp [pathStarts, h]
        · right; simp [pathStarts, h]

theorem pathStarts_trans {a b c : FsPath}
    (h1 : pathStarts a b = true) (h2 : pathStarts b c = true) :
    pathStarts a c = true := by
  rcases (pathStarts_iff a b).1 h1 with ⟨r, rfl⟩
  rcases (pathStarts_iff (a ++ r) c).1 h2 with ⟨s, rfl⟩
  exact (pathStarts_iff _ _).2 ⟨r ++ s, by rw [List.append_assoc]⟩

/-- The last segment of a path (the file basename); `""` for the empty path. -/
def basename : FsPath → String
  | [] => ""
  | a :: rest => if rest.isEmpty then a else basename rest

@[simp] theorem basename_nil : basename [] = "" := rfl

theorem basename_cons (a : String) (rest : FsPath) :
    basename (a :: rest) = if rest.isEmpty then a else basename rest := rfl

theorem basename_append {r : FsPath} (d : FsPath) (hr : r ≠ []) :
    basename (d ++ r) = basename r := by
  induction d with
  | nil => rfl
  | cons a as ih =>
    have hne : (as ++ r).isEmpty = false := by
      cases as with
      | nil =>
        cases r with
        | nil => exact absurd rfl hr
        | cons _ _ => rfl
      | cons _ _ => rfl
    rw [List.cons_append, basename_cons, hne]
    simpa using ih

/-- A finite filesystem: a list of (file path, contents) entries plus a list
of directories known to exist (children imply their ancestors exist). -/
structure FS where
  files : List (FsPath × String)
  dirs : List FsPath
  deriving DecidableEq

/-- First-match lookup of a file's contents. -/
def lookupFile : List (FsPath × String) → FsPath → Option String
  | [], _ => none
  | (q, c) :: rest, p => if q = p then some c else lookupFile rest p

/-- Overwrite-or-append of a file entry (mirrors writing a file). -/
def setFile : List (FsPath × String) → FsPath → String → List (FsPath × String)
  | [], p, c => [(p, c)]
  | (q, d) :: rest, p, c =>
      if q = p then (p, c) :: rest else (q, d) :: setFile rest p c

theorem lookupFile_setFile_self (fs : List (FsPath × String)) (p : FsPath) (c : String) :
    lookupFile (setFile fs p c) p = some c := by
  induction fs with
  | nil => simp [setFile, lookupFile]
  | cons e rest ih =>
    obtain ⟨q, d⟩ := e
    by_cases h : q = p
    · simp [setFile, h, lookupFile]
    · simp [setFile, h, lookupFile, ih]

theorem lookupFile_setFile_other (fs : List (FsPath × String)) (p t : FsPath) (c : String)
    (h : t ≠ p) : lookupFile (setFile fs p c) t = lookupFile fs t := by
  induction fs with
  | nil => simp [setFile, lookupFile, Ne.symm h]
  | cons e rest ih =>
    obtain ⟨q, d⟩ := e
    by_cases hq : q = p
    · subst hq
      simp [setFile, lookupFile, Ne.symm h]
    · simp [setFile, hq, lookupFile, ih]

/-- `fs-extra` `removeSync`: delete the file or directory tree rooted at `p`. -/
def FS.removeTree (fs : FS) (p : FsPath) : FS :=
  { files := fs.files.filter (fun e => !(pathStarts p e.1)),
    dirs := fs.dirs.filter (fun d => !(pathStarts p d)) }

/-- Write (create or fully overwrite) the file at `p`. -/
def FS.writeFile (fs : FS) (p : FsPath) (c : String) : FS :=
  { fs with files := setFile fs.files p c }

/-- `mkdirp` / `ensureDirSync`: record a directory as existing. -/
def FS.mkdirp (fs : FS) (p : FsPath) : FS :=
  { fs with dirs := p :: fs.dirs }

/-- `existsSync`: `p` exists when some recorded file or directory lies at or
below it. -/
def FS.existsPath (fs : FS) (p : FsPath) : Bool :=
  fs.files.any (fun e => pathStarts p e.1) || fs.dirs.any (fun d => pathStarts p d)

theorem lookupFile_filterNotUnder (files : List (FsPath × String)) (d t : FsPath)
    (h : pathStarts d t = false) :
    lookupFile (files.filter (fun e => !(pathStarts d e.1))) t = lookupFile files t := by
  induction files with
  | nil => rfl
  | cons e rest ih =>
    obtain ⟨q, c⟩ := e
    rw [List.filter_cons]
    by_cases hq : q = t
    · subst hq
      simp [h, lookupFile, ih]
    · cases hd : pathStarts d q with
      | true => simp [lookupFile, hq, ih]
      | false => simp [lookupFile, hq, ih]

theorem lookupFile_removeTree_of_not_under (fs : FS) (d t : FsPath)
    (h : pathStarts d t = false) :
    lookupFile (fs.removeTree d).files t = lookupFile fs.files t :=
  lookupFile_filterNotUnder fs.files d t h

theorem existsPath_removeTree_self (fs : FS) (p : FsPath) :
    (fs.removeTree p).existsPath p = false := by
  unfold FS.existsPath FS.removeTree
  simp only [Bool.or_eq_false_iff, List.any_eq_false]
  constructor
  · intro e he
    rw [List.mem_filter] at he
    simpa using he.2
  · intro d hd
    rw [List.mem_filter] at hd
    simpa using hd.2

/-!
### `Project.prototype.replaceLocalFiles` (project.js, lines 329-375)

The walker (`findit`) emits every file under the staging root `remotePath`.
For each file the destination directory is computed by substituting the
staging root prefix with `path.join(workspace, name, 'src')`; the destination
directory is created if missing; then the file is deleted-and-copied unless it
is the manifest (`package.xml`) and `replacePackageXml` is false.  After the
walk the staging root is removed.
-/

/-- Destination of a staged file: the staging-root prefix replaced by the
canonical source root. -/
def destOf (remotePath destRoot p : FsPath) : FsPath :=
  destRoot ++ p.drop remotePath.length

/-- Body of the `finder.on('file', ...)` handler. -/
def replaceStep (remotePath destRoot : FsPath) (replacePackageXml : Bool)
    (fs : FS) (e : FsPath × String) : FS :=
  let dest := destOf remotePath destRoot e.1
  let destDir := dest.dropLast
  let fs1 := if fs.existsPath destDir then fs else fs.mkdirp destDir
  if replacePackageXml && (basename e.1 == "package.xml") then
    (fs1.removeTree dest).writeFile dest e.2
  else if basename e.1 != "package.xml" then
    (fs1.removeTree dest).writeFile dest e.2
  else fs1

/-- The files the walker visits: every file under the staging root. -/
def stagedFiles (fs : FS) (remotePath : FsPath) : List (FsPath × String) :=
  fs.files.filter (fun e => pathStarts remotePath e.1)

/-- `finder.on('end', ...)`: remove the staging root if it still exists. -/
def finderEnd (fs : FS) (remotePath : FsPath) : FS :=
  if fs.existsPath remotePath then fs.removeTree remotePath else fs

/-- `Project.prototype.replaceLocalFiles(remotePath, replacePackageXml)`. -/
def replaceLocalFiles (fs : FS) (workspace : FsPath) (name : String)
    (remotePath : FsPath) (replacePackageXml : Bool) : FS :=
  finderEnd
    ((stagedFiles fs remotePath).foldl
      (replaceStep remotePath (workspace ++ [name, "src"]) replacePackageXml) fs)
    remotePath

theorem lookupFile_finderEnd (fs : FS) (m t : FsPath) (h : pathStarts m t = false) :
    lookupFile (finderEnd fs m).files t = lookupFile fs.files t := by
  unfold finderEnd
  split
  · exact lookupFile_removeTree_of_not_under fs m t h
  · rfl

theorem existsPath_finderEnd (fs : FS) (m : FsPath) :
    (finderEnd fs m).existsPath m = false := by
  unfold finderEnd
  split
  · exact existsPath_removeTree_self fs m
  · rename_i h
    rw [Bool.not_eq_true] at h
    exact h

/-- The condition under which the handler actually replaces the file
(both replacing branches have the same body). -/
def actsOn (rep : Bool) (p : FsPath) : Bool :=
  (rep && (basename p == "package.xml")) || (basename p != "package.xml")

theorem replaceStep_files_eq (m dR : FsPath) (rep : Bool) (fs : FS) (e : FsPath × String) :
    (replaceStep m dR rep fs e).files =
      if actsOn rep e.1 then
        setFile (fs.files.filter (fun x => !(pathStarts (destOf m dR e.1) x.1)))
          (destOf m dR e.1) e.2
      else fs.files := by
  unfold replaceStep actsOn
  by_cases h1 : (rep && (basename e.1 == "package.xml")) = true
  · by_cases h2 : fs.existsPath (destOf m dR e.1).dropLast <;>
      simp [h1, h2, FS.writeFile, FS.removeTree, FS.mkdirp]
  · rw [Bool.not_eq_true] at h1
    by_cases h3 : (basename e.1 != "package.xml") = true
    · by_cases h2 : fs.existsPath (destOf m dR e.1).dropLast <;>
        simp [h1, h2, h3, FS.writeFile, FS.removeTree, FS.mkdirp]
    · rw [Bool.not_eq_true] at h3
      by_cases h2 : fs.existsPath (destOf m dR e.1).dropLast <;>
        simp [h1, h2, h3, FS.mkdirp]

theorem destOf_starts_iff (m dR p q : FsPath)
    (hp : pathStarts m p = true) (hq : pathStarts m q = true) :
    pathStarts (destOf m dR q) (destOf m dR p) = pathStarts q p := by
  rcases (pathStarts_iff m p).1 hp with ⟨r, rfl⟩
  rcases (pathStarts_iff m q).1 hq with ⟨s, rfl⟩
  unfold destOf
  rw [List.drop_left, List.drop_left, pathStarts_append_same dR s r,
    pathStarts_append_same m s r]

/-- A destination path never lies under the staging root when the two roots
are unrelated. -/
theorem destOf_not_under_staging (m dR p : FsPath)
    (h1 : pathStarts m dR = false) (h2 : pathStarts dR m = false) :
    pathStarts m (destOf m dR p) = false := by
  by_contra hcon
  rw [Bool.not_eq_false] at hcon
  have hdr : pathStarts dR (destOf m dR p) = true :=
    (pathStarts_iff _ _).2 ⟨_, rfl⟩
  rcases pathStarts_total hcon hdr with h | h
  · rw [h1] at h; exact Bool.false_ne_true h
  · rw [h2] at h; exact Bool.false_ne_true h

/-- Frame property of the walk: a path not under any acted-on destination
keeps its contents. -/
theorem foldl_replaceStep_frame (m dR : FsPath) (rep : Bool) (t : FsPath) :
    ∀ (L : List (FsPath × String)) (fs : FS),
      (∀ e ∈ L, actsOn rep e.1 = true → pathStarts (destOf m dR e.1) t = false) →
      lookupFile (L.foldl (replaceStep m dR rep) fs).files t = lookupFile fs.files t := by
  intro L
  induction L with
  | nil => intro fs _; rfl
  | cons e rest ih =>
    intro fs h
    rw [List.foldl_cons, ih _ (fun x hx => h x (List.mem_cons_of_mem _ hx)),
      replaceStep_files_eq]
    by_cases hact : actsOn rep e.1 = true
    · have he := h e (List.mem_cons_self _ _) hact
      have hne : t ≠ destOf m dR e.1 := by
        intro hcon
        rw [hcon, pathStarts_refl] at he
        exact Bool.false_ne_true he.symm
      rw [if_pos hact, lookupFile_setFile_other _ _ _ _ hne,
        lookupFile_filterNotUnder _ _ _ he]
    · rw [if_neg hact]

/-- Pairwise independence of walked files: no path leads another. -/
abbrev goodList (L : List (FsPath × String)) : Prop :=
  List.Pairwise (fun a b => pathStarts a.1 b.1 = false ∧ pathStarts b.1 a.1 = false) L

/-- Every acted-on staged file ends up, at its destination, with exactly its
staged contents. -/
theorem foldl_replaceStep_writes (m dR : FsPath) (rep : Bool) :
    ∀ (L : List (FsPath × String)) (fs : FS),
      goodList L →
      (∀ e ∈ L, pathStarts m e.1 = true) →
      ∀ p c, (p, c) ∈ L → actsOn rep p = true →
      lookupFile (L.foldl (replaceStep m dR rep) fs).files (destOf m dR p) = some c := by
  intro L
  induction L with
  | nil => intro fs _ _ p c hmem; cases hmem
  | cons e rest ih =>
    intro fs hg hunder p c hmem hact
    have hg' := List.pairwise_cons.1 hg
    rw [List.foldl_cons]
    rcases List.mem_cons.1 hmem with heq | hrest
    · cases heq.symm
      rw [foldl_replaceStep_frame m dR rep _ rest _ ?later]
      case later =>
        intro x hx _
        have hrel := hg'.1 x hx
        rw [destOf_starts_iff m dR p x.1
          (hunder _ (List.mem_cons_self _ _)) (hunder _ (List.mem_cons_of_mem _ hx))]
        exact hrel.2
      rw [replaceStep_files_eq, if_pos hact]
      exact lookupFile_setFile_self _ _ _
    · exact ih (replaceStep m dR rep fs e) hg'.2
        (fun x hx => hunder x (List.mem_cons_of_mem _ hx)) p c hrest hact

theorem pairwise_rel_of_mem {α : Type} {R : α → α → Prop}
    (hsymm : ∀ x y, R x y → R y x) :
    ∀ {l : List α}, l.Pairwise R → ∀ {a b : α}, a ∈ l → b ∈ l → a ≠ b → R a b := by
  intro l hl
  induction hl with
  | nil => intro a b ha _ _; cases ha
  | cons hhead _ ih =>
    intro a b ha hb hne
    rcases List.mem_cons.1 ha with rfl | ha'
    · rcases List.mem_cons.1 hb with rfl | hb'
      · exact absurd rfl hne
      · exact hhead b hb'
    · rcases List.mem_cons.1 hb with rfl | hb'
      · exact hsymm _ _ (hhead a ha')
      · exact ih ha' hb' hne

/-- **C1.** `replaceLocalFiles(staging, replaceManifest)` makes every staged
non-manifest file byte-identical at its destination, copies the staged
manifest too when `replaceManifest` is true, leaves the destination manifest
at its pre-call contents when `replaceManifest` is false, and afterwards the
staging root no longer exists.  Hypotheses: distinct file paths never lead
one another (a well-formed filesystem), and the staging root and the
canonical source root do not lead one another. -/
theorem C1_replaceLocalFiles (fs : FS) (ws : FsPath) (name : String)
    (m : FsPath) (rep : Bool)
    (hwf : goodList fs.files)
    (hdisj1 : pathStarts m (ws ++ [name, "src"]) = false)
    (hdisj2 : pathStarts (ws ++ [name, "src"]) m = false) :
    (∀ p c, (p, c) ∈ fs.files → pathStarts m p = true →
      basename p ≠ "package.xml" →
      lookupFile (replaceLocalFiles fs ws name m rep).files
        (destOf m (ws ++ [name, "src"]) p) = some c)
    ∧ (rep = true → ∀ p c, (p, c) ∈ fs.files → pathStarts m p = true →
      lookupFile (replaceLocalFiles fs ws name m rep).files
        (destOf m (ws ++ [name, "src"]) p) = some c)
    ∧ (rep = false → ∀ p c, (p, c) ∈ fs.files → pathStarts m p = true →
      basename p = "package.xml" →
      lookupFile (replaceLocalFiles fs ws name m rep).files
        (destOf m (ws ++ [name, "src"]) p)
        = lookupFile fs.files (destOf m (ws ++ [name, "src"]) p))
    ∧ (replaceLocalFiles fs ws name m rep).existsPath m = false := by
  have hLsub : List.Sublist (stagedFiles fs m) fs.files := List.filter_sublist _
  have hgood : goodList (stagedFiles fs m) := hwf.sublist hLsub
  have hunder : ∀ e ∈ stagedFiles fs m, pathStarts m e.1 = true := by
    intro e he
    exact (List.mem_filter.1 he).2
  have hcopy : ∀ p c, (p, c) ∈ fs.files → pathStarts m p = true →
      actsOn rep p = true →
      lookupFile (replaceLocalFiles fs ws name m rep).files
        (destOf m (ws ++ [name, "src"]) p) = some c := by
    intro p c hmem hp hact
    unfold replaceLocalFiles
    rw [lookupFile_finderEnd _ _ _
      (destOf_not_under_staging m (ws ++ [name, "src"]) p hdisj1 hdisj2)]
    exact foldl_replaceStep_writes m (ws ++ [name, "src"]) rep _ fs hgood hunder p c
      (List.mem_filter.2 ⟨hmem, hp⟩) hact
  refine ⟨?_, ?_, ?_, ?_⟩
  · intro p c hmem hp hbase
    refine hcopy p c hmem hp ?_
    unfold actsOn
    simp only [Bool.or_eq_true, bne_iff_ne, ne_eq]
    exact Or.inr hbase
  · rintro rfl p c hmem hp
    refine hcopy p c hmem hp ?_
    unfold actsOn
    by_cases hb : (basename p == "package.xml") = true
    · simp [hb]
    · simp only [Bool.or_eq_true, bne_iff_ne, ne_eq]
      exact Or.inr (by simpa using hb)
  · rintro rfl p c hmem hp hbase
    unfold replaceLocalFiles
    rw [lookupFile_finderEnd _ _ _
      (destOf_not_under_staging m (ws ++ [name, "src"]) p hdisj1 hdisj2)]
    apply foldl_replaceStep_frame
    intro e he hact
    have hbe : basename e.1 ≠ "package.xml" := by
      unfold actsOn at hact
      simpa using hact
    have hne : e.1 ≠ p := fun hcon => hbe (by rw [hcon, hbase])
    rw [destOf_starts_iff m (ws ++ [name, "src"]) p e.1 hp (hunder e he)]
    have hpair := @pairwise_rel_of_mem (FsPath × String)
      (fun a b => pathStarts a.1 b.1 = false ∧ pathStarts b.1 a.1 = false)
      (fun x y h => ⟨h.2, h.1⟩) _ hgood _ _ he (List.mem_filter.2 ⟨hmem, hp⟩)
      (fun hcon => hne (by rw [hcon]))
    exact hpair.1
  · unfold replaceLocalFiles
    exact existsPath_finderEnd _ _

/-- Witness for C1: a concrete staging tree with a class file, a staged
manifest, and a pre-existing destination manifest, `replaceManifest=false`. -/
theorem C1_replaceLocalFiles_witness :
    lookupFile (replaceLocalFiles
        ⟨[(["tmp", "stage", "classes", "A.cls"], "new A"),
          (["tmp", "stage", "package.xml"], "new manifest"),
          (["w", "p", "src", "package.xml"], "old manifest")], []⟩
        ["w"] "p" ["tmp", "stage"] false).files
      ["w", "p", "src", "classes", "A.cls"] = some "new A" :=
  (C1_replaceLocalFiles
      ⟨[(["tmp", "stage", "classes", "A.cls"], "new A"),
        (["tmp", "stage", "package.xml"], "new manifest"),
        (["w", "p", "src", "package.xml"], "old manifest")], []⟩
      ["w"] "p" ["tmp", "stage"] false (by decide) (by decide) (by decide)).1
    ["tmp", "stage", "classes", "A.cls"] "new A" (by decide) (by decide) (by decide)

/-!
### Shared step machinery for the project-creation workflows
-/

/-- Outcome of one external step (network call or composite write): whether
it succeeded, its rejection message otherwise, and the files it wrote beneath
the project directory before settling (partial writes included). -/
structure StepSpec where
  ok : Bool
  err : String
  writes : List (FsPath × String)
  deriving DecidableEq

/-- Apply a step's file writes beneath `root`. -/
def applyWrites (fs : FS) (root : FsPath) (ws : List (FsPath × String)) : FS :=
  ws.foldl (fun f e => f.writeFile (root ++ e.1) e.2) fs

/-- `fs.renameSync`: move the subtree at `src` to `dst`. -/
def FS.renameTree (fs : FS) (src dst : FsPath) : FS :=
  { files := fs.files.map (fun e =>
      if pathStarts src e.1 then (dst ++ e.1.drop src.length, e.2) else e),
    dirs := fs.dirs.map (fun d =>
      if pathStarts src d then dst ++ d.drop src.length else d) }

/-- `fs-extra` `copySync(src, dst)` on a directory: every file and directory
beneath `src` is mirrored beneath `dst` (copies shadow prior entries). -/
def FS.copyTree (fs : FS) (src dst : FsPath) : FS :=
  { files := (fs.files.filter (fun e => pathStarts src e.1)).map
      (fun e => (dst ++ e.1.drop src.length, e.2)) ++ fs.files,
    dirs := (fs.dirs.filter (fun d => pathStarts src d)).map
      (fun d => dst ++ d.drop src.length) ++ fs.dirs }

theorem existsPath_mkdirp_mono (fs : FS) (w p : FsPath)
    (h : fs.existsPath p = true) : (fs.mkdirp w).existsPath p = true := by
  simp only [FS.existsPath, FS.mkdirp, List.any_cons, Bool.or_eq_true] at h ⊢
  tauto

theorem existsPath_mkdirp_of_not_under (fs : FS) (w p : FsPath)
    (h : pathStarts p w = false) :
    (fs.mkdirp w).existsPath p = fs.existsPath p := by
  simp only [FS.existsPath, FS.mkdirp, List.any_cons, h]
  rfl

theorem pathStarts_append_singleton_self (ws : FsPath) (nm : String) :
    pathStarts (ws ++ [nm]) ws = false := by
  by_contra hcon
  rw [Bool.not_eq_false] at hcon
  have hlen := pathStarts_length_le hcon
  simp at hlen

theorem existsPath_of_dir_mem {fs : FS} {d p : FsPath} (hmem : d ∈ fs.dirs)
    (h : pathStarts p d = true) : fs.existsPath p = true := by
  unfold FS.existsPath
  rw [Bool.or_eq_true]
  right
  rw [List.any_eq_true]
  exact ⟨d, hmem, h⟩

theorem mem_dirs_applyWrites {fs : FS} {d : FsPath} (root : FsPath)
    (ws : List (FsPath × String)) (h : d ∈ fs.dirs) :
    d ∈ (applyWrites fs root ws).dirs := by
  induction ws generalizing fs with
  | nil => exact h
  | cons e rest ih => exact @ih (fs.writeFile (root ++ e.1) e.2) h

theorem mem_dirs_removeTree {fs : FS} {d : FsPath} (x : FsPath)
    (hx : pathStarts x d = false) (h : d ∈ fs.dirs) :
    d ∈ (fs.removeTree x).dirs :=
  List.mem_filter.2 ⟨h, by simp [hx]⟩

/-!
### `Project.prototype.retrieveAndWriteToDisk` (project.js, lines 392-445)

The project path is `workspace/name` (already set by the `_initNew` caller);
`describe`, `retrieveUnpackaged`, `_initConfig` and `_writeLocalStore` are
external-effect steps modelled by `StepSpec`s.  `setDescribe` does not write
`.describe` before the `config` directory exists (project.js line 858), so a
`describe` failure mutates nothing.
-/

/-- The `.catch` handler: remove the project directory if it exists, reject. -/
def rwCatch (fs : FS) (projPath : FsPath) (e : String) : Except String Unit × FS :=
  (Except.error e, if fs.existsPath projPath then fs.removeTree projPath else fs)

/-- `Project.prototype.retrieveAndWriteToDisk`. -/
def retrieveAndWriteToDisk (fs : FS) (projPath : FsPath)
    (describeStep retrieveStep initConfigStep writeStoreStep : StepSpec) :
    Except String Unit × FS :=
  if fs.existsPath projPath then
    (Except.error "Project with this name already exists in the specified workspace.", fs)
  else if !describeStep.ok then
    rwCatch fs projPath describeStep.err
  else
    let fs1 := (fs.mkdirp projPath).mkdirp (projPath ++ ["config"])
    let fs2 := applyWrites fs1 projPath retrieveStep.writes
    if !retrieveStep.ok then rwCatch fs2 projPath retrieveStep.err
    else
      let fs3 := if fs2.existsPath (projPath ++ ["unpackaged"]) then
          fs2.renameTree (projPath ++ ["unpackaged"]) (projPath ++ ["src"])
        else fs2
      let fs4 := applyWrites fs3 projPath initConfigStep.writes
      if !initConfigStep.ok then rwCatch fs4 projPath initConfigStep.err
      else
        let fs5 := applyWrites fs4 projPath writeStoreStep.writes
        if !writeStoreStep.ok then rwCatch fs5 projPath writeStoreStep.err
        else (Except.ok (), fs5)

theorem rwCatch_error (fs : FS) (p : FsPath) (e : String) :
    (rwCatch fs p e).1 = Except.error e := rfl

theorem rwCatch_existsPath (fs : FS) (p : FsPath) (e : String) :
    (rwCatch fs p e).2.existsPath p = false := by
  unfold rwCatch
  dsimp only
  split
  · exact existsPath_removeTree_self fs p
  · rename_i h
    rw [Bool.not_eq_true] at h
    exact h

/-- **C4.** `retrieveAndWriteToDisk` rejects with no disk mutation when the
project path already exists; and every failure after the project directory
has been created (failed retrieve, config bootstrap or local-store write)
removes the entire created project directory before rejecting. -/
theorem C4_retrieveAndWriteToDisk (fs : FS) (projPath : FsPath)
    (d r i w : StepSpec) :
    (fs.existsPath projPath = true →
      retrieveAndWriteToDisk fs projPath d r i w =
        (Except.error "Project with this name already exists in the specified workspace.",
          fs))
    ∧ (fs.existsPath projPath = false → d.ok = true →
      (r.ok = false ∨ i.ok = false ∨ w.ok = false) →
      (∃ e, (retrieveAndWriteToDisk fs projPath d r i w).1 = Except.error e)
      ∧ (retrieveAndWriteToDisk fs projPath d r i w).2.existsPath projPath = false) := by
  constructor
  · intro h
    unfold retrieveAndWriteToDisk
    rw [if_pos h]
  · intro h hd hfail
    unfold retrieveAndWriteToDisk
    rw [if_neg (by simp [h]), hd]
    simp only [Bool.not_true, Bool.false_eq_true, if_false]
    rcases hfail with hr | hi | hw
    · rw [hr]
      simp only [Bool.not_false, if_true]
      exact ⟨⟨r.err, rwCatch_error _ _ _⟩, rwCatch_existsPath _ _ _⟩
    · by_cases hr : r.ok
      · rw [hr, hi]
        simp only [Bool.not_true, Bool.not_false, Bool.false_eq_true, if_false, if_true]
        exact ⟨⟨i.err, rwCatch_error _ _ _⟩, rwCatch_existsPath _ _ _⟩
      · rw [Bool.not_eq_true] at hr
        rw [hr]
        simp only [Bool.not_false, if_true]
        exact ⟨⟨r.err, rwCatch_error _ _ _⟩, rwCatch_existsPath _ _ _⟩
    · by_cases hr : r.ok
      · by_cases hi : i.ok
        · rw [hr, hi, hw]
          simp only [Bool.not_true, Bool.not_false, Bool.false_eq_true, if_false, if_true]
          exact ⟨⟨w.err, rwCatch_error _ _ _⟩, rwCatch_existsPath _ _ _⟩
        · rw [Bool.not_eq_true] at hi
          rw [hr, hi]
          simp only [Bool.not_true, Bool.not_false, Bool.false_eq_true, if_false, if_true]
          exact ⟨⟨i.err, rwCatch_error _ _ _⟩, rwCatch_existsPath _ _ _⟩
      · rw [Bool.not_eq_true] at hr
        rw [hr]
        simp only [Bool.not_false, if_true]
        exact ⟨⟨r.err, rwCatch_error _ _ _⟩, rwCatch_existsPath _ _ _⟩

/-- Witness for C4: a fresh workspace, describe succeeds, the retrieve step
fails after writing a partial staging file; the created project directory is
gone afterwards. -/
theorem C4_retrieveAndWriteToDisk_witness :
    (∃ e, (retrieveAndWriteToDisk ⟨[], [["tmp", "ws"]]⟩ ["tmp", "ws", "Proj1"]
        ⟨true, "", []⟩ ⟨false, "retrieve failed", [(["unpackaged", "classes", "A.cls"], "A")]⟩
        ⟨true, "", []⟩ ⟨true, "", []⟩).1 = Except.error e)
    ∧ (retrieveAndWriteToDisk ⟨[], [["tmp", "ws"]]⟩ ["tmp", "ws", "Proj1"]
        ⟨true, "", []⟩ ⟨false, "retrieve failed", [(["unpackaged", "classes", "A.cls"], "A")]⟩
        ⟨true, "", []⟩ ⟨true, "", []⟩).2.existsPath ["tmp", "ws", "Proj1"] = false :=
  (C4_retrieveAndWriteToDisk ⟨[], [["tmp", "ws"]]⟩ ["tmp", "ws", "Proj1"]
    ⟨true, "", []⟩ ⟨false, "retrieve failed", [(["unpackaged", "classes", "A.cls"], "A")]⟩
    ⟨true, "", []⟩ ⟨true, "", []⟩).2 (by decide) (by decide) (Or.inl rfl)

/-!
### `Project.prototype._initNew` (project.js, lines 295-327)
-/

/-- Result of `_initNew`: the settled outcome (resolved generated id or
rejection message), the project id field afterwards, and the filesystem. -/
structure InitNewResult where
  outcome : Except String String
  id : Option String
  fs : FS

/-- `Project.prototype._initNew`.  `workspace` is the project's workspace
option, `wsSetting` the `mm_workspace` configuration fallback, `freshId` the
uuid produced by the external generator. -/
def initNew (fs : FS) (workspace : Option FsPath) (wsSetting : Option FsPath)
    (name : String) (freshId : String) : InitNewResult :=
  let resolved : Option FsPath :=
    match workspace with
    | some w => some w
    | none => wsSetting
  match resolved with
  | none =>
    { outcome := Except.error "Could not set workspace for new project",
      id := none, fs := fs }
  | some w =>
    let fs1 := if fs.existsPath w then fs else fs.mkdirp w
    if fs1.existsPath (w ++ [name]) then
      { outcome := Except.error "Directory already exists!", id := none, fs := fs1 }
    else
      { outcome := Except.ok freshId, id := some freshId, fs := fs1 }

/-- **C5.** Initializing a new project with workspace `ws` and name `nm`
when `ws/nm` does not exist resolves with the freshly generated id (and
assigns it); repeating once the directory exists rejects with
"Directory already exists!" and assigns no id. -/
theorem C5_initNew (fs fs2 : FS) (ws : FsPath) (nm fid fid2 : String)
    (s1 s2 : Option FsPath)
    (h1 : fs.existsPath (ws ++ [nm]) = false)
    (h2 : fs2.existsPath (ws ++ [nm]) = true) :
    ((initNew fs (some ws) s1 nm fid).outcome = Except.ok fid
      ∧ (initNew fs (some ws) s1 nm fid).id = some fid)
    ∧ ((initNew fs2 (some ws) s2 nm fid2).outcome
        = Except.error "Directory already exists!"
      ∧ (initNew fs2 (some ws) s2 nm fid2).id = none) := by
  constructor
  · have hnew : (if fs.existsPath ws then fs else fs.mkdirp ws).existsPath
        (ws ++ [nm]) = false := by
      split
      · exact h1
      · rw [existsPath_mkdirp_of_not_under fs ws (ws ++ [nm])
          (pathStarts_append_singleton_self ws nm)]
        exact h1
    unfold initNew
    simp only [hnew, Bool.false_eq_true, if_false]
    exact ⟨trivial, trivial⟩
  · have hold : (if fs2.existsPath ws then fs2 else fs2.mkdirp ws).existsPath
        (ws ++ [nm]) = true := by
      split
      · exact h2
      · exact existsPath_mkdirp_mono fs2 ws (ws ++ [nm]) h2
    unfold initNew
    simp only [hold, if_true]
    exact ⟨trivial, trivial⟩

/-- Witness for C5 on the concrete `/tmp/ws` + `Proj1` scenario. -/
theorem C5_initNew_witness :
    ((initNew ⟨[], [["tmp", "ws"]]⟩ (some ["tmp", "ws"]) none "Proj1" "uuid-1").outcome
       = Except.ok "uuid-1"
     ∧ (initNew ⟨[], [["tmp", "ws"]]⟩ (some ["tmp", "ws"]) none "Proj1" "uuid-1").id
       = some "uuid-1")
    ∧ ((initNew ⟨[], [["tmp", "ws", "Proj1"]]⟩ (some ["tmp", "ws"]) none "Proj1" "uuid-2").outcome
       = Except.error "Directory already exists!"
     ∧ (initNew ⟨[], [["tmp", "ws", "Proj1"]]⟩ (some ["tmp", "ws"]) none "Proj1" "uuid-2").id
       = none) :=
  C5_initNew ⟨[], [["tmp", "ws"]]⟩ ⟨[], [["tmp", "ws", "Proj1"]]⟩ ["tmp", "ws"]
    "Proj1" "uuid-1" "uuid-2" none none (by decide) (by decide)

/-!
### `Project.prototype._initNewProjectFromExistingDirectory`
(project.js, lines 117-184)

Validations first (workspace present, `src/` and `src/package.xml` under the
origin); when the origin differs from `workspace/name` the tree is copied
(rejecting if the destination already exists); then the promise chain runs
describe → package init → retrieve → config bootstrap → local-store write.
The `.catch` handler deletes `workspace/name` only when the origin differs
from it and it exists.
-/

/-- The `.catch` handler of `_initNewProjectFromExistingDirectory`. -/
def iedCatch (fs : FS) (origin dest : FsPath) (e : String) :
    Except String Unit × FS :=
  (Except.error e,
    if origin ≠ dest ∧ fs.existsPath dest = true then fs.removeTree dest else fs)

/-- The promise chain of `_initNewProjectFromExistingDirectory`, starting
after the copy/validation phase with the destination path fixed. -/
def iedChain (fs1 : FS) (origin dest : FsPath)
    (describeStep pkgInitStep retrieveStep initConfigStep writeStoreStep : StepSpec) :
    Except String Unit × FS :=
  let fs2 := fs1.mkdirp (dest ++ ["config"])
  if !describeStep.ok then iedCatch fs2 origin dest describeStep.err
  else
    let fs3 := fs2.writeFile (dest ++ ["config", ".describe"]) "describe snapshot"
    if !pkgInitStep.ok then iedCatch fs3 origin dest pkgInitStep.err
    else
      let fs4 := applyWrites fs3 dest retrieveStep.writes
      if !retrieveStep.ok then iedCatch fs4 origin dest retrieveStep.err
      else
        let fs5 := if fs4.existsPath (dest ++ ["unpackaged"]) then
            fs4.removeTree (dest ++ ["unpackaged"]) else fs4
        let fs6 := applyWrites fs5 dest initConfigStep.writes
        if !initConfigStep.ok then iedCatch fs6 origin dest initConfigStep.err
        else
          let fs7 := applyWrites fs6 dest writeStoreStep.writes
          if !writeStoreStep.ok then iedCatch fs7 origin dest writeStoreStep.err
          else (Except.ok (), fs7)

/-- `Project.prototype._initNewProjectFromExistingDirectory`. -/
def initNewProjectFromExistingDirectory (fs : FS) (origin : FsPath)
    (workspace : Option FsPath) (name : String)
    (d pk r i w : StepSpec) : Except String Unit × FS :=
  match workspace with
  | none => (Except.error "Please select a workspace for this project", fs)
  | some ws =>
    if fs.existsPath (origin ++ ["src"]) = false then
      (Except.error "Project must have a top-level src directory", fs)
    else if fs.existsPath (origin ++ ["src", "package.xml"]) = false then
      (Except.error "Project must have a valid package.xml file located in the src directory", fs)
    else if origin ≠ ws ++ [name] then
      if fs.existsPath (ws ++ [name]) then
        (Except.error "Project with this name already exists in the selected workspace", fs)
      else iedChain ((fs.mkdirp (ws ++ [name])).copyTree origin (ws ++ [name]))
        origin (ws ++ [name]) d pk r i w
    else iedChain fs origin (ws ++ [name]) d pk r i w

theorem iedCatch_eq_of_same (fs : FS) (dst : FsPath) (e : String) :
    (iedCatch fs dst dst e).2 = fs := by
  unfold iedCatch
  dsimp only
  rw [if_neg]
  intro hcon
  exact hcon.1 rfl

theorem iedCatch_existsPath_of_ne (fs : FS) (o dst : FsPath) (e : String)
    (hne : o ≠ dst) : (iedCatch fs o dst e).2.existsPath dst = false := by
  unfold iedCatch
  dsimp only
  split
  · exact existsPath_removeTree_self fs dst
  · rename_i h
    have hB := not_and.mp h hne
    rw [Bool.not_eq_true] at hB
    exact hB

theorem mem_dirs_writeFile {fs : FS} {d : FsPath} (p : FsPath) (c : String)
    (h : d ∈ fs.dirs) : d ∈ (fs.writeFile p c).dirs := h

theorem mem_dirs_removeUnpackaged {fs : FS} {dest : FsPath}
    (h : dest ++ ["config"] ∈ fs.dirs) :
    dest ++ ["config"] ∈ (if fs.existsPath (dest ++ ["unpackaged"]) then
      fs.removeTree (dest ++ ["unpackaged"]) else fs).dirs := by
  split
  · refine mem_dirs_removeTree _ ?_ h
    rw [pathStarts_append_same]
    decide
  · exact h

/-- With origin equal to the destination, the chain never deletes the
destination directory, whatever succeeds or fails. -/
theorem iedChain_keeps_dest (fs1 : FS) (dest : FsPath) (d pk r i w : StepSpec) :
    (iedChain fs1 dest dest d pk r i w).2.existsPath dest = true := by
  have hstart : pathStarts dest (dest ++ ["config"]) = true :=
    (pathStarts_iff _ _).2 ⟨["config"], rfl⟩
  unfold iedChain
  by_cases hd : d.ok
  all_goals by_cases hp : pk.ok
  all_goals by_cases hr : r.ok
  all_goals by_cases hi : i.ok
  all_goals by_cases hw : w.ok
  all_goals simp only [hd, hp, hr, hi, hw, Bool.not_true, Bool.not_false,
    Bool.false_eq_true, if_false, if_true, iedCatch_eq_of_same]
  all_goals refine existsPath_of_dir_mem ?_ hstart
  all_goals
    repeat
      first
      | exact List.mem_cons_self _ _
      | apply mem_dirs_applyWrites
      | apply mem_dirs_removeUnpackaged
      | apply mem_dirs_writeFile

/-- With origin differing from the destination, a chain failure always
removes the destination directory. -/
theorem iedChain_error_removes (fs1 : FS) (origin dest : FsPath)
    (d pk r i w : StepSpec) (hne : origin ≠ dest) (e : String)
    (he : (iedChain fs1 origin dest d pk r i w).1 = Except.error e) :
    (iedChain fs1 origin dest d pk r i w).2.existsPath dest = false := by
  unfold iedChain at he ⊢
  by_cases hd : d.ok = true
  · by_cases hp : pk.ok = true
    · by_cases hr : r.ok = true
      · by_cases hi : i.ok = true
        · by_cases hw : w.ok = true
          · simp only [hd, hp, hr, hi, hw, Bool.not_true, Bool.false_eq_true,
              if_false] at he
            exact Except.noConfusion he
          · rw [Bool.not_eq_true] at hw
            simp only [hd, hp, hr, hi, hw, Bool.not_true, Bool.not_false,
              Bool.false_eq_true, if_false, if_true]
            exact iedCatch_existsPath_of_ne _ _ _ _ hne
        · rw [Bool.not_eq_true] at hi
          simp only [hd, hp, hr, hi, Bool.not_true, Bool.not_false,
            Bool.false_eq_true, if_false, if_true]
          exact iedCatch_existsPath_of_ne _ _ _ _ hne
      · rw [Bool.not_eq_true] at hr
        simp only [hd, hp, hr, Bool.not_true, Bool.not_false,
          Bool.false_eq_true, if_false, if_true]
        exact iedCatch_existsPath_of_ne _ _ _ _ hne
    · rw [Bool.not_eq_true] at hp
      simp only [hd, hp, Bool.not_true, Bool.not_false,
        Bool.false_eq_true, if_false, if_true]
      exact iedCatch_existsPath_of_ne _ _ _ _ hne
  · rw [Bool.not_eq_true] at hd
    simp only [hd, Bool.not_false, if_true]
    exact iedCatch_existsPath_of_ne _ _ _ _ hne

/-- **C8.** On failure, `_initNewProjectFromExistingDirectory` deletes the
destination `workspace/name` only when it was freshly copied there (origin
differs from destination); with origin equal to `workspace/name` the
directory is never deleted. -/
theorem C8_initNewProjectFromExistingDirectory (fs : FS) (origin ws : FsPath)
    (name : String) (d pk r i w : StepSpec) :
    (origin = ws ++ [name] → fs.existsPath (ws ++ [name]) = true →
      (initNewProjectFromExistingDirectory fs origin (some ws) name
        d pk r i w).2.existsPath (ws ++ [name]) = true)
    ∧ (origin ≠ ws ++ [name] → fs.existsPath (ws ++ [name]) = false →
      ∀ e, (initNewProjectFromExistingDirectory fs origin (some ws) name
        d pk r i w).1 = Except.error e →
      (initNewProjectFromExistingDirectory fs origin (some ws) name
        d pk r i w).2.existsPath (ws ++ [name]) = false) := by
  constructor
  · intro ha hex
    simp only [initNewProjectFromExistingDirectory]
    by_cases h1 : fs.existsPath (origin ++ ["src"]) = false
    · rw [if_pos h1]
      exact hex
    · rw [if_neg h1]
      by_cases h2 : fs.existsPath (origin ++ ["src", "package.xml"]) = false
      · rw [if_pos h2]
        exact hex
      · rw [if_neg h2, if_neg (fun hcon => hcon ha)]
        subst ha
        exact iedChain_keeps_dest fs _ d pk r i w
  · intro hne hf e he
    simp only [initNewProjectFromExistingDirectory] at he ⊢
    by_cases h1 : fs.existsPath (origin ++ ["src"]) = false
    · rw [if_pos h1]
      exact hf
    · rw [if_neg h1] at he ⊢
      by_cases h2 : fs.existsPath (origin ++ ["src", "package.xml"]) = false
      · rw [if_pos h2]
        exact hf
      · rw [if_neg h2, if_pos hne, if_neg (by simp [hf])] at he ⊢
        exact iedChain_error_removes _ origin (ws ++ [name]) d pk r i w hne e he

/-- Witness for C8: a same-path project (origin equals `workspace/name`)
whose retrieve step fails; the directory survives.  And a freshly copied
project whose retrieve step fails; the copy is removed. -/
theorem C8_initNewProjectFromExistingDirectory_witness :
    ((initNewProjectFromExistingDirectory
        ⟨[(["w", "p", "src", "package.xml"], "m")], []⟩ ["w", "p"] (some ["w"]) "p"
        ⟨true, "", []⟩ ⟨true, "", []⟩ ⟨false, "retrieve failed", []⟩
        ⟨true, "", []⟩ ⟨true, "", []⟩).2.existsPath ["w", "p"] = true)
    ∧ ((initNewProjectFromExistingDirectory
        ⟨[(["ext", "q", "src", "package.xml"], "m")], []⟩ ["ext", "q"] (some ["w"]) "p"
        ⟨true, "", []⟩ ⟨true, "", []⟩ ⟨false, "retrieve failed", []⟩
        ⟨true, "", []⟩ ⟨true, "", []⟩).2.existsPath ["w", "p"] = false) :=
  ⟨(C8_initNewProjectFromExistingDirectory
      ⟨[(["w", "p", "src", "package.xml"], "m")], []⟩ ["w", "p"] ["w"] "p"
      ⟨true, "", []⟩ ⟨true, "", []⟩ ⟨false, "retrieve failed", []⟩
      ⟨true, "", []⟩ ⟨true, "", []⟩).1 (by decide) (by decide),
   (C8_initNewProjectFromExistingDirectory
      ⟨[(["ext", "q", "src", "package.xml"], "m")], []⟩ ["ext", "q"] ["w"] "p"
      ⟨true, "", []⟩ ⟨true, "", []⟩ ⟨false, "retrieve failed", []⟩
      ⟨true, "", []⟩ ⟨true, "", []⟩).2 (by decide) (by decide)
      "retrieve failed" rfl⟩

/-!
### Local store reconciliation
(`Project.prototype._writeLocalStore`, lines 1155-1204;
`Project.prototype.updateLocalStore`, lines 1085-1153;
`Project.prototype.getLocalStore`, lines 769-781)

File properties are embedded as records with the fields the code touches;
the metadata-type registry (`metadata.js`) and `normalize-object` are
external collaborators passed as functions.  JavaScript truthiness of string
fields is modelled by `truthy` (absent or empty means falsy).
-/

/-- A metadata-type descriptor returned by the external type registry. -/
structure MetadataType where
  xmlName : String
  suffix : String
  directoryName : String
  tagName : String
  inFolder : Bool
  parentXmlName : Option String
  childXmlNames : Option (List String)
  deriving DecidableEq

/-- A `createdBy` / `lastModifiedBy` sub-object of an API-query record. -/
structure Person where
  pname : String
  deriving DecidableEq

/-- The `attributes` sub-object of an API-query record. -/
structure Attrs where
  type : Option String
  deriving DecidableEq

/-- A file-property record (raw retrieve result or API-query record). -/
structure FileProp where
  fileName : String
  fullName : String
  name : String
  type : Option String
  attributes : Option Attrs
  createdBy : Option Person
  lastModifiedBy : Option Person
  createdByName : Option String
  lastModifiedByName : Option String
  manageableState : Option String
  namespacePrefix : Option String
  mmState : Option String
  deriving DecidableEq

/-- JavaScript truthiness of an optional string field. -/
def truthy : Option String → Bool
  | none => false
  | some s => !(s == "")

/-- `s.indexOf(pat) >= 0` over character lists. -/
def charsContain : List Char → List Char → Bool
  | _, [] => true
  | [], _ :: _ => false
  | c :: rest, pat => pat.isPrefixOf (c :: rest) || charsContain rest pat

/-- `s.indexOf(pat) >= 0`: `pat` occurs inside `s`. -/
def strContains (s pat : String) : Bool :=
  charsContain s.data pat.data

/-- The persisted local store: an ordered mapping keyed by
`fullName.suffix`. -/
abbrev LocalStore := List (String × FileProp)

def storeLookup : LocalStore → String → Option FileProp
  | [], _ => none
  | (k, v) :: rest, q => if k = q then some v else storeLookup rest q

def storeSet : LocalStore → String → FileProp → LocalStore
  | [], k, v => [(k, v)]
  | (k0, v0) :: rest, k, v =>
      if k0 = k then (k, v) :: rest else (k0, v0) :: storeSet rest k v

theorem storeLookup_storeSet_self (st : LocalStore) (k : String) (v : FileProp) :
    storeLookup (storeSet st k v) k = some v := by
  induction st with
  | nil => simp [storeSet, storeLookup]
  | cons e rest ih =>
    obtain ⟨k0, v0⟩ := e
    by_cases h : k0 = k
    · simp [storeSet, h, storeLookup]
    · simp [storeSet, h, storeLookup, ih]

theorem storeLookup_storeSet_other (st : LocalStore) (k q : String) (v : FileProp)
    (h : q ≠ k) : storeLookup (storeSet st k v) q = storeLookup st q := by
  induction st with
  | nil => simp [storeSet, storeLookup, Ne.symm h]
  | cons e rest ih =>
    obtain ⟨k0, v0⟩ := e
    by_cases hk : k0 = k
    · subst hk
      simp [storeSet, storeLookup, Ne.symm h]
    · simp [storeSet, hk, storeLookup, ih]

theorem mem_storeSet {st : LocalStore} {k : String} {v : FileProp}
    {a : String × FileProp} (h : a ∈ storeSet st k v) : a.1 = k ∨ a ∈ st := by
  induction st with
  | nil =>
    simp [storeSet] at h
    subst h
    exact Or.inl rfl
  | cons e rest ih =>
    obtain ⟨k0, v0⟩ := e
    by_cases he : k0 = k
    · simp only [storeSet, he, if_true] at h
      rcases List.mem_cons.1 h with rfl | h2
      · exact Or.inl rfl
      · exact Or.inr (List.mem_cons_of_mem _ h2)
    · simp only [storeSet, he, if_false] at h
      rcases List.mem_cons.1 h with rfl | h2
      · exact Or.inr (List.mem_cons_self _ _)
      · rcases ih h2 with hk | hm
        · exact Or.inl hk
        · exact Or.inr (List.mem_cons_of_mem _ hm)

/-- Keys stay pairwise distinct under `storeSet` (one entry per key). -/
theorem storeSet_pairwiseKeys : ∀ (st : LocalStore) (k : String) (v : FileProp),
    st.Pairwise (fun a b => a.1 ≠ b.1) →
    (storeSet st k v).Pairwise (fun a b => a.1 ≠ b.1) := by
  intro st
  induction st with
  | nil =>
    intro k v _
    simp [storeSet]
  | cons e rest ih =>
    intro k v h
    obtain ⟨k0, v0⟩ := e
    have h' := List.pairwise_cons.1 h
    by_cases he : k0 = k
    · subst he
      simp only [storeSet, if_true]
      exact List.pairwise_cons.2 ⟨h'.1, h'.2⟩
    · simp only [storeSet, he, if_false]
      refine List.pairwise_cons.2 ⟨?_, ih k v h'.2⟩
      intro a ha
      rcases mem_storeSet ha with hk | hm
      · rw [hk]
        exact he
      · exact h'.1 a hm

/-- One property in `_writeLocalStore`: resolve the type by file path, skip
unresolved types and the manifest, key by `fullName.suffix`, tag
`mmState = 'clean'`. -/
def writeStoreKV (getTypeByPath : String → Option MetadataType) (fp : FileProp) :
    Option (String × FileProp) :=
  match getTypeByPath fp.fileName with
  | some mt =>
    if strContains fp.fullName "package.xml" then none
    else some (fp.fullName ++ "." ++ mt.suffix, { fp with mmState := some "clean" })
  | none => none

/-- The store `_writeLocalStore` builds: starting from `{}`, fold the
properties. -/
def buildLocalStore (g : String → Option MetadataType) (props : List FileProp) :
    LocalStore :=
  props.foldl (fun st fp =>
    match writeStoreKV g fp with
    | some (k, v) => storeSet st k v
    | none => st) []

/-- `Project.prototype._writeLocalStore`: replaces the stored file wholesale
(the prior store is never read); `writeOk` models the `fs.outputFile`
callback. -/
def writeLocalStore (g : String → Option MetadataType) (prior : LocalStore)
    (props : List FileProp) (writeOk : Bool) : Except String LocalStore :=
  if writeOk then Except.ok (buildLocalStore g props)
  else Except.error "Could not write local store: write failed"

theorem buildFold_frame (g : String → Option MetadataType) (k : String) :
    ∀ (props : List FileProp) (st : LocalStore),
      (∀ fp ∈ props, ∀ kv, writeStoreKV g fp = some kv → kv.1 ≠ k) →
      storeLookup (props.foldl (fun st fp =>
        match writeStoreKV g fp with
        | some (k, v) => storeSet st k v
        | none => st) st) k = storeLookup st k := by
  intro props
  induction props with
  | nil => intro st _; rfl
  | cons fp rest ih =>
    intro st h
    rw [List.foldl_cons]
    rw [ih _ (fun x hx => h x (List.mem_cons_of_mem _ hx))]
    cases hkv : writeStoreKV g fp with
    | none => rfl
    | some kv =>
      obtain ⟨k1, v1⟩ := kv
      exact storeLookup_storeSet_other st k1 k v1
        (fun hc => (h fp (List.mem_cons_self _ _) (k1, v1) hkv) hc.symm)

theorem buildFold_hit (g : String → Option MetadataType) :
    ∀ (props : List FileProp) (st : LocalStore) (fp : FileProp) (k : String)
      (v0 : FileProp), fp ∈ props → writeStoreKV g fp = some (k, v0) →
      ∃ v, storeLookup (props.foldl (fun st fp =>
          match writeStoreKV g fp with
          | some (k, v) => storeSet st k v
          | none => st) st) k = some v
        ∧ ∃ fp2 ∈ props, writeStoreKV g fp2 = some (k, v) := by
  intro props
  induction props with
  | nil => intro st fp k v0 hmem; cases hmem
  | cons fp1 rest ih =>
    intro st fp k v0 hmem hkv
    by_cases hrest : ∃ fp2 ∈ rest, ∃ v2, writeStoreKV g fp2 = some (k, v2)
    · rcases hrest with ⟨fp2, hm2, v2, hkv2⟩
      rcases ih _ fp2 k v2 hm2 hkv2 with ⟨v, hl, fp3, hm3, hkv3⟩
      exact ⟨v, by rw [List.foldl_cons]; exact hl,
        fp3, List.mem_cons_of_mem _ hm3, hkv3⟩
    · push_neg at hrest
      have hfp1 : fp = fp1 := by
        rcases List.mem_cons.1 hmem with h | h
        · exact h
        · exact absurd hkv (by simpa using hrest fp h v0)
      subst hfp1
      rw [List.foldl_cons, hkv]
      rw [buildFold_frame g k rest _ ?nok]
      case nok =>
        intro x hx kv hkv2 hck
        obtain ⟨k2, v2⟩ := kv
        have hck2 : k2 = k := hck
        subst hck2
        exact hrest x hx v2 hkv2
      exact ⟨v0, storeLookup_storeSet_self st k v0,
        fp, List.mem_cons_self _ _, hkv⟩

theorem buildFold_provenance (g : String → Option MetadataType) :
    ∀ (props : List FileProp) (st : LocalStore) (k : String) (v : FileProp),
      storeLookup (props.foldl (fun st fp =>
        match writeStoreKV g fp with
        | some (k, v) => storeSet st k v
        | none => st) st) k = some v →
      (∃ fp ∈ props, writeStoreKV g fp = some (k, v)) ∨ storeLookup st k = some v := by
  intro props
  induction props with
  | nil => intro st k v h; exact Or.inr h
  | cons fp1 rest ih =>
    intro st k v h
    rw [List.foldl_cons] at h
    rcases ih _ k v h with ⟨fp2, hm, hkv⟩ | hbase
    · exact Or.inl ⟨fp2, List.mem_cons_of_mem _ hm, hkv⟩
    · cases hkv1 : writeStoreKV g fp1 with
      | none =>
        rw [hkv1] at hbase
        exact Or.inr hbase
      | some kv =>
        obtain ⟨k1, v1⟩ := kv
        rw [hkv1] at hbase
        by_cases hk : k = k1
        · subst hk
          rw [storeLookup_storeSet_self] at hbase
          cases hbase
          exact Or.inl ⟨fp1, List.mem_cons_self _ _, hkv1⟩
        · rw [storeLookup_storeSet_other _ _ _ _ hk] at hbase
          exact Or.inr hbase

theorem buildFold_pairwiseKeys (g : String → Option MetadataType) :
    ∀ (props : List FileProp) (st : LocalStore),
      st.Pairwise (fun a b => a.1 ≠ b.1) →
      (props.foldl (fun st fp =>
        match writeStoreKV g fp with
        | some (k, v) => storeSet st k v
        | none => st) st).Pairwise (fun a b => a.1 ≠ b.1) := by
  intro props
  induction props with
  | nil => intro st h; exact h
  | cons fp rest ih =>
    intro st h
    rw [List.foldl_cons]
    cases hkv : writeStoreKV g fp with
    | none => exact ih _ h
    | some kv => exact ih _ (storeSet_pairwiseKeys st kv.1 kv.2 h)

theorem writeStoreKV_shape {g : String → Option MetadataType} {fp : FileProp}
    {k : String} {v : FileProp} (h : writeStoreKV g fp = some (k, v)) :
    ∃ mt, g fp.fileName = some mt
      ∧ strContains fp.fullName "package.xml" = false
      ∧ k = fp.fullName ++ "." ++ mt.suffix
      ∧ v = { fp with mmState := some "clean" } := by
  unfold writeStoreKV at h
  cases hg : g fp.fileName with
  | none =>
    rw [hg] at h
    exact Option.noConfusion h
  | some mt =>
    rw [hg] at h
    have h2 : (if strContains fp.fullName "package.xml" = true then none
        else some (fp.fullName ++ "." ++ mt.suffix,
          { fp with mmState := some "clean" })) = some (k, v) := h
    by_cases hman : strContains fp.fullName "package.xml" = true
    · rw [if_pos hman] at h2
      exact Option.noConfusion h2
    · rw [Bool.not_eq_true] at hman
      rw [if_neg (by rw [hman]; exact Bool.false_ne_true)] at h2
      rw [Option.some.injEq, Prod.mk.injEq] at h2
      exact ⟨mt, rfl, hman, h2.1.symm, h2.2.symm⟩

/-- **C2.** `_writeLocalStore(props)` followed by `getLocalStore()` yields a
store determined by `props` alone (wholesale replace): exactly one entry,
keyed `fullName.suffix` and tagged `mmState = 'clean'`, for each property
whose type resolves by file path; unresolvable properties and the manifest
entry are absent, and nothing from any prior store survives. -/
theorem C2_writeLocalStore (g : String → Option MetadataType)
    (props : List FileProp) (prior prior2 : LocalStore) :
    writeLocalStore g prior props true = Except.ok (buildLocalStore g props)
    ∧ writeLocalStore g prior2 props true = writeLocalStore g prior props true
    ∧ (∀ fp ∈ props, ∀ mt, g fp.fileName = some mt →
        strContains fp.fullName "package.xml" = false →
        ∃ v, storeLookup (buildLocalStore g props)
            (fp.fullName ++ "." ++ mt.suffix) = some v
          ∧ v.mmState = some "clean")
    ∧ (∀ k v, storeLookup (buildLocalStore g props) k = some v →
        ∃ fp ∈ props, ∃ mt, g fp.fileName = some mt
          ∧ strContains fp.fullName "package.xml" = false
          ∧ k = fp.fullName ++ "." ++ mt.suffix
          ∧ v = { fp with mmState := some "clean" })
    ∧ (buildLocalStore g props).Pairwise (fun a b => a.1 ≠ b.1) := by
  refine ⟨rfl, rfl, ?_, ?_, ?_⟩
  · intro fp hmem mt hg hman
    have hkv : writeStoreKV g fp = some (fp.fullName ++ "." ++ mt.suffix,
        { fp with mmState := some "clean" }) := by
      unfold writeStoreKV
      rw [hg, hman]
      simp
    rcases buildFold_hit g props [] fp _ _ hmem hkv with ⟨v, hl, fp2, _, hkv2⟩
    rcases writeStoreKV_shape hkv2 with ⟨mt2, _, _, _, hv⟩
    exact ⟨v, hl, by rw [hv]⟩
  · intro k v h
    rcases buildFold_provenance g props [] k v h with ⟨fp, hm, hkv⟩ | hbase
    · rcases writeStoreKV_shape hkv with ⟨mt, hg, hman, hk, hv⟩
      exact ⟨fp, hm, mt, hg, hman, hk, hv⟩
    · cases hbase
  · exact buildFold_pairwiseKeys g props [] List.Pairwise.nil

/-- Witness for C2: one resolvable class property plus the manifest
property; the store holds exactly the class entry, tagged clean. -/
theorem C2_writeLocalStore_witness :
    ∃ v, storeLookup (buildLocalStore
        (fun s => if s = "classes/Foo.cls" then
            some ⟨"ApexClass", "cls", "classes", "", false, none, none⟩ else none)
        [⟨"classes/Foo.cls", "Foo", "Foo", none, none, none, none, none, none,
            none, none, none⟩,
         ⟨"package.xml", "package.xml", "package.xml", none, none, none, none,
            none, none, none, none, none⟩])
      ("Foo" ++ "." ++ "cls") = some v ∧ v.mmState = some "clean" :=
  (C2_writeLocalStore
      (fun s => if s = "classes/Foo.cls" then
          some ⟨"ApexClass", "cls", "classes", "", false, none, none⟩ else none)
      [⟨"classes/Foo.cls", "Foo", "Foo", none, none, none, none, none, none,
          none, none, none⟩,
       ⟨"package.xml", "package.xml", "package.xml", none, none, none, none,
          none, none, none, none, none⟩] [] []).2.2.1
    _ (List.mem_cons_self _ _)
    ⟨"ApexClass", "cls", "classes", "", false, none, none⟩ (by decide) (by decide)

/-- Split a character list on a separator (JavaScript `String.split`). -/
def splitOnChar (sep : Char) : List Char → List (List Char)
  | [] => [[]]
  | c :: rest =>
    let r := splitOnChar sep rest
    if c = sep then [] :: r
    else
      match r with
      | [] => [[c]]
      | h :: t => (c :: h) :: t

/-- `fileName.split('.')[1]` (empty when there is no dot, standing in for
the `undefined` the registry would receive). -/
def splitDotSecond (s : String) : String :=
  match splitOnChar '.' s.data with
  | _ :: second :: _ => String.mk second
  | _ => ""

/-- The external collaborators of `updateLocalStore`: the metadata-type
registry lookups. -/
structure TypeRegistry where
  getTypeByXmlName : String → Option MetadataType
  getTypeByPath : String → Option MetadataType

/-- The insertion step of `updateLocalStore` (project.js lines 1121-1135):
an attribute-bearing record is keyed `name.suffix`, otherwise a non-manifest
record is keyed `fullName.suffix`; both are tagged `mmState = 'clean'`. -/
def insertStep (fp : FileProp) (mt : Option MetadataType) :
    Option (String × FileProp) :=
  match mt with
  | some m =>
    if fp.attributes.isSome then
      some (fp.name ++ "." ++ m.suffix, { fp with mmState := some "clean" })
    else if strContains fp.fullName "package.xml" then none
    else some (fp.fullName ++ "." ++ m.suffix, { fp with mmState := some "clean" })
  | none => none

/-- One property's processing in `updateLocalStore` (project.js lines
1098-1135): shape-sniff the record (external `normalize` runs first on
attribute-bearing records), resolve its type by explicit type name, declared
API type, or file-name suffix, and produce the pair to merge; the
API-record branch throws when the declared type does not resolve or the
creator sub-objects are missing. -/
def updateStoreKV (reg : TypeRegistry) (normalize : FileProp → FileProp)
    (fp0 : FileProp) : Except String (Option (String × FileProp)) :=
  let fp := if fp0.attributes.isSome then normalize fp0 else fp0
  if truthy fp.type then
    Except.ok (insertStep fp (reg.getTypeByXmlName (fp.type.getD "")))
  else
    match fp.attributes with
    | some a =>
      if truthy a.type then
        match reg.getTypeByXmlName (a.type.getD "") with
        | none => Except.error "TypeError: metadataType is undefined"
        | some mt =>
          match fp.createdBy, fp.lastModifiedBy with
          | some cb, some lmb =>
            Except.ok (insertStep
              { fp with
                fullName := fp.name,
                fileName := "unpackaged/" ++ mt.directoryName ++ "/" ++ fp.name
                  ++ "." ++ mt.suffix,
                createdByName := some cb.pname,
                lastModifiedByName := some lmb.pname,
                manageableState :=
                  some (if truthy fp.namespacePrefix then "managed" else "unmanaged"),
                type := some mt.xmlName,
                attributes := none,
                createdBy := none,
                lastModifiedBy := none }
              (some mt))
          | _, _ => Except.error "TypeError: createdBy is undefined"
      else
        Except.ok (insertStep fp (reg.getTypeByPath (splitDotSecond fp.fileName)))
    | none =>
      Except.ok (insertStep fp (reg.getTypeByPath (splitDotSecond fp.fileName)))

/-- The `_.each` loop of `updateLocalStore`: merge each property into the
store read from disk; a throw aborts the whole loop. -/
def mergeFold (reg : TypeRegistry) (normalize : FileProp → FileProp) :
    LocalStore → List FileProp → Except String LocalStore
  | st, [] => Except.ok st
  | st, fp :: rest =>
    match updateStoreKV reg normalize fp with
    | Except.error e => Except.error e
    | Except.ok none => mergeFold reg normalize st rest
    | Except.ok (some (k, v)) => mergeFold reg normalize (storeSet st k v) rest

/-- `Project.prototype.updateLocalStore`: read-modify-write of the existing
store; a processing throw or a failed file write rejects, leaving the stored
file unchanged. -/
def updateLocalStore (reg : TypeRegistry) (normalize : FileProp → FileProp)
    (store0 : LocalStore) (props : List FileProp) (writeOk : Bool) :
    Except String LocalStore :=
  match mergeFold reg normalize store0 props with
  | Except.error e => Except.error e
  | Except.ok st =>
    if writeOk then Except.ok st else Except.error "Could not write local store"

/-- The store key a property contributes, if any. -/
def mergedKey (reg : TypeRegistry) (normalize : FileProp → FileProp)
    (fp : FileProp) : Option String :=
  match updateStoreKV reg normalize fp with
  | Except.ok (some kv) => some kv.1
  | _ => none

theorem mergeFold_frame (reg : TypeRegistry) (normalize : FileProp → FileProp)
    (k : String) :
    ∀ (props : List FileProp) (st st' : LocalStore),
      mergeFold reg normalize st props = Except.ok st' →
      (∀ fp ∈ props, mergedKey reg normalize fp ≠ some k) →
      storeLookup st' k = storeLookup st k := by
  intro props
  induction props with
  | nil =>
    intro st st' h _
    injection h with h
    rw [h]
  | cons fp rest ih =>
    intro st st' h hk
    unfold mergeFold at h
    cases hkv : updateStoreKV reg normalize fp with
    | error e => rw [hkv] at h; cases h
    | ok kv =>
      rw [hkv] at h
      cases kv with
      | none => exact ih _ _ h (fun x hx => hk x (List.mem_cons_of_mem _ hx))
      | some kv1 =>
        obtain ⟨k1, v1⟩ := kv1
        have hne : k ≠ k1 := by
          intro hc
          exact hk fp (List.mem_cons_self _ _) (by unfold mergedKey; rw [hkv, hc])
        rw [ih _ _ h (fun x hx => hk x (List.mem_cons_of_mem _ hx)),
          storeLookup_storeSet_other _ _ _ _ hne]

theorem mergeFold_provenance (reg : TypeRegistry) (normalize : FileProp → FileProp) :
    ∀ (props : List FileProp) (st st' : LocalStore) (k : String) (v : FileProp),
      mergeFold reg normalize st props = Except.ok st' →
      storeLookup st' k = some v →
      storeLookup st k = some v ∨
        ∃ fp ∈ props, updateStoreKV reg normalize fp = Except.ok (some (k, v)) := by
  intro props
  induction props with
  | nil =>
    intro st st' k v h hl
    injection h with h
    rw [h]
    exact Or.inl hl
  | cons fp rest ih =>
    intro st st' k v h hl
    unfold mergeFold at h
    cases hkv : updateStoreKV reg normalize fp with
    | error e => rw [hkv] at h; cases h
    | ok kv =>
      rw [hkv] at h
      cases kv with
      | none =>
        rcases ih _ _ k v h hl with hbase | ⟨fp2, hm, hkv2⟩
        · exact Or.inl hbase
        · exact Or.inr ⟨fp2, List.mem_cons_of_mem _ hm, hkv2⟩
      | some kv1 =>
        obtain ⟨k1, v1⟩ := kv1
        rcases ih _ _ k v h hl with hbase | ⟨fp2, hm, hkv2⟩
        · by_cases hk : k = k1
          · subst hk
            rw [storeLookup_storeSet_self] at hbase
            injection hbase with hbase
            subst hbase
            exact Or.inr ⟨fp, List.mem_cons_self _ _, hkv⟩
          · rw [storeLookup_storeSet_other _ _ _ _ hk] at hbase
            exact Or.inl hbase
        · exact Or.inr ⟨fp2, List.mem_cons_of_mem _ hm, hkv2⟩

/-- **C3.** `updateLocalStore(props)` merges: every pre-existing entry whose
key is not derived from some property in `props` is unchanged, and only
entries whose keys match a property in `props` are overwritten (their values
coming from those properties) — never a wholesale replace. -/
theorem C3_updateLocalStore (reg : TypeRegistry) (normalize : FileProp → FileProp)
    (store0 : LocalStore) (props : List FileProp) (writeOk : Bool)
    (store' : LocalStore)
    (h : updateLocalStore reg normalize store0 props writeOk = Except.ok store') :
    (∀ k, (∀ fp ∈ props, mergedKey reg normalize fp ≠ some k) →
      storeLookup store' k = storeLookup store0 k)
    ∧ (∀ k v, storeLookup store' k = some v →
      storeLookup store0 k = some v ∨
        ∃ fp ∈ props, updateStoreKV reg normalize fp = Except.ok (some (k, v))) := by
  have hm : mergeFold reg normalize store0 props = Except.ok store' := by
    unfold updateLocalStore at h
    cases hmf : mergeFold reg normalize store0 props with
    | error e => rw [hmf] at h; cases h
    | ok st =>
      rw [hmf] at h
      cases writeOk with
      | true =>
        simp only [if_true] at h
        injection h with h
        rw [h]
      | false => simp only [Bool.false_eq_true, if_false] at h; cases h
  exact ⟨fun k hk => mergeFold_frame reg normalize k props store0 store' hm hk,
    fun k v hl => mergeFold_provenance reg normalize props store0 store' k v hm hl⟩

/-- Witness for C3: merging one class property into a store holding an
unrelated trigger entry leaves the trigger entry unchanged. -/
theorem C3_updateLocalStore_witness :
    updateLocalStore
        ⟨fun _ => none,
         fun s => if s = "cls" then
            some ⟨"ApexClass", "cls", "classes", "", false, none, none⟩ else none⟩
        id
        [("Bar.trigger",
          ⟨"triggers/Bar.trigger", "Bar", "Bar", none, none, none, none, none,
            none, none, none, some "clean"⟩)]
        [⟨"classes/Foo.cls", "Foo", "Foo", none, none, none, none, none, none,
            none, none, none⟩]
        true = Except.ok
          [("Bar.trigger",
            ⟨"triggers/Bar.trigger", "Bar", "Bar", none, none, none, none, none,
              none, none, none, some "clean"⟩),
           ("Foo.cls",
            ⟨"classes/Foo.cls", "Foo", "Foo", none, none, none, none, none, none,
              none, none, some "clean"⟩)]
      ∧ storeLookup
          [("Bar.trigger",
            ⟨"triggers/Bar.trigger", "Bar", "Bar", none, none, none, none, none,
              none, none, none, some "clean"⟩),
           ("Foo.cls",
            ⟨"classes/Foo.cls", "Foo", "Foo", none, none, none, none, none, none,
              none, none, some "clean"⟩)]
          "Bar.trigger" =
        storeLookup
          [("Bar.trigger",
            ⟨"triggers/Bar.trigger", "Bar", "Bar", none, none, none, none, none,
              none, none, none, some "clean"⟩)]
          "Bar.trigger" := by
  constructor
  · rfl
  · exact (C3_updateLocalStore
      ⟨fun _ => none,
       fun s => if s = "cls" then
          some ⟨"ApexClass", "cls", "classes", "", false, none, none⟩ else none⟩
      id
      [("Bar.trigger",
        ⟨"triggers/Bar.trigger", "Bar", "Bar", none, none, none, none, none,
          none, none, none, some "clean"⟩)]
      [⟨"classes/Foo.cls", "Foo", "Foo", none, none, none, none, none, none,
          none, none, none⟩]
      true _ rfl).1 "Bar.trigger" (by decide)

/-!
### `Project.prototype.compile` (project.js, lines 550-587)
-/

/-- The `details` object of a deploy response: an optional retrieve result
carrying file properties (`performRetrieve: true`). -/
structure DeployDetails where
  retrieveResult : Option (List FileProp)
  deriving DecidableEq

/-- A deploy response. -/
structure DeployResult where
  details : DeployDetails
  deriving DecidableEq

/-- `Project.prototype.compile`: copy the source tree into a temp directory,
zip it, deploy with rollback-on-error and retrieve-after-deploy semantics;
when the response carries a retrieve result, merge its file properties into
the local store with `updateLocalStore`; then resolve with the deploy
result.  Any rejection in the chain — including a failed merge — reaches the
single `.catch`, which rejects with that error. -/
def compile (reg : TypeRegistry) (normalize : FileProp → FileProp)
    (store0 : LocalStore) (copyRes zipRes : Except String Unit)
    (deployRes : Except String DeployResult) (storeWriteOk : Bool) :
    Except String DeployResult × LocalStore :=
  match copyRes with
  | Except.error e => (Except.error e, store0)
  | Except.ok _ =>
    match zipRes with
    | Except.error e => (Except.error e, store0)
    | Except.ok _ =>
      match deployRes with
      | Except.error e => (Except.error e, store0)
      | Except.ok dr =>
        match dr.details.retrieveResult with
        | some props =>
          match updateLocalStore reg normalize store0 props storeWriteOk with
          | Except.ok st => (Except.ok dr, st)
          | Except.error e => (Except.error e, store0)
        | none => (Except.ok dr, store0)

/-- Counterexample to C6 as stated: with a successful deploy whose response
carries a retrieve result, a failed local-store merge (here: the store write
fails) makes `compile` reject with the merge error — the caller does not
receive the deploy result. -/
theorem C6_compile_counterexample :
    (compile ⟨fun _ => none, fun _ => none⟩ id [] (Except.ok ()) (Except.ok ())
        (Except.ok ⟨⟨some []⟩⟩) false).1 = Except.error "Could not write local store"
    ∧ (compile ⟨fun _ => none, fun _ => none⟩ id [] (Except.ok ()) (Except.ok ())
        (Except.ok ⟨⟨some []⟩⟩) false).1 ≠ Except.ok ⟨⟨some []⟩⟩ := by
  constructor
  · rfl
  · intro h
    rw [show (compile ⟨fun _ => none, fun _ => none⟩ id [] (Except.ok ())
        (Except.ok ()) (Except.ok ⟨⟨some []⟩⟩) false).1
        = Except.error "Could not write local store" from rfl] at h
    exact Except.noConfusion h

/-- **C6 (amended).** For every successful deploy: if the response has no
retrieve result, or the merge of its file properties (an incremental
`updateLocalStore`, not a full replace) succeeds, `compile` resolves with
the raw deploy result; if the merge fails, `compile` rejects with the merge
error instead of returning the deploy result. -/
theorem C6_compile_amended (reg : TypeRegistry) (normalize : FileProp → FileProp)
    (store0 : LocalStore) (dr : DeployResult) (storeWriteOk : Bool) :
    (dr.details.retrieveResult = none →
      compile reg normalize store0 (Except.ok ()) (Except.ok ())
        (Except.ok dr) storeWriteOk = (Except.ok dr, store0))
    ∧ (∀ props st, dr.details.retrieveResult = some props →
      updateLocalStore reg normalize store0 props storeWriteOk = Except.ok st →
      compile reg normalize store0 (Except.ok ()) (Except.ok ())
        (Except.ok dr) storeWriteOk = (Except.ok dr, st))
    ∧ (∀ props e, dr.details.retrieveResult = some props →
      updateLocalStore reg normalize store0 props storeWriteOk = Except.error e →
      compile reg normalize store0 (Except.ok ()) (Except.ok ())
        (Except.ok dr) storeWriteOk = (Except.error e, store0)) := by
  refine ⟨?_, ?_, ?_⟩
  · intro h
    simp only [compile, h]
  · intro props st h1 h2
    simp only [compile, h1, h2]
  · intro props e h1 h2
    simp only [compile, h1, h2]

/-- Witness for the amended C6: empty retrieve result merged successfully,
compile resolves with the deploy result. -/
theorem C6_compile_amended_witness :
    compile ⟨fun _ => none, fun _ => none⟩ id [] (Except.ok ()) (Except.ok ())
        (Except.ok ⟨⟨some []⟩⟩) true = (Except.ok ⟨⟨some []⟩⟩, []) :=
  (C6_compile_amended ⟨fun _ => none, fun _ => none⟩ id [] ⟨⟨some []⟩⟩ true).2.1
    [] [] rfl rfl

/-!
### `Project.prototype._initExisting` failure handling
(project.js, lines 280-285)
-/

/-- The three authentication-failure signatures matched against the error
message (`error.message.indexOf(...) >= 0`). -/
def authErrorMatch (msg : String) : Bool :=
  strContains msg "INVALID_LOGIN" || strContains msg "EXPIRED_PASSWORD" ||
    strContains msg "LOGIN_MUST_USE_SECURITY_TOKEN"

/-- `Project.prototype._initExisting`, abstracted over the outcome of its
promise pipeline (package init, settings and session loads, connection,
store and index loads, describe refresh, streaming subscription — all
external-effect steps): the guard rejects an invalid project directory;
pipeline success marks the project valid; pipeline failure sets
`valid := false` exactly when the message matches an authentication
signature, and rejects either way. -/
def initExisting (isValidDir : Bool) (valid0 : Option Bool)
    (pipeline : Except String Unit) : Option Bool × Except String Unit :=
  if !isValidDir then
    (valid0, Except.error "This does not seem to be a valid MavensMate project directory.")
  else
    match pipeline with
    | Except.ok _ => (some true, Except.ok ())
    | Except.error e =>
      (if authErrorMatch e then some false else valid0, Except.error e)

/-- **C7.** Every pipeline failure of `_initExisting` rejects with that
failure; the project valid flag is set to false if and only if the message
matches INVALID_LOGIN, EXPIRED_PASSWORD or LOGIN_MUST_USE_SECURITY_TOKEN;
non-matching failures reject leaving the flag untouched. -/
theorem C7_initExisting (valid0 : Option Bool) (e : String) :
    (initExisting true valid0 (Except.error e)).2 = Except.error e
    ∧ (authErrorMatch e = true →
        (initExisting true valid0 (Except.error e)).1 = some false)
    ∧ (authErrorMatch e = false →
        (initExisting true valid0 (Except.error e)).1 = valid0) := by
  refine ⟨rfl, ?_, ?_⟩ <;> intro h <;> simp [initExisting, h]

/-- Witness for C7: an INVALID_LOGIN failure marks the project invalid; a
network timeout rejects without touching the flag. -/
theorem C7_initExisting_witness :
    (initExisting true none (Except.error "INVALID_LOGIN: authentication failure")).1
      = some false
    ∧ (initExisting true none (Except.error "connection timed out")).1 = none :=
  ⟨(C7_initExisting none "INVALID_LOGIN: authentication failure").2.1 (by decide),
   (C7_initExisting none "connection timed out").2.2 (by decide)⟩

/-!
### `Project.prototype.getLocalStore` (project.js, lines 769-781)
-/

/-- An error thrown by `fs.readJsonSync` (missing file or JSON parse
failure), carrying its message. -/
structure JsError where
  message : String
  deriving DecidableEq

/-- `Project.prototype.getLocalStore`: return the parsed store; convert a
read error whose message contains 'Unexpected end of input' into the empty
store; rethrow every other error.  `readResult` is the outcome of the
external `fs.readJsonSync` call on `config/.local_store`. -/
def getLocalStore (readResult : Except JsError LocalStore) :
    Except JsError LocalStore :=
  match readResult with
  | Except.ok store => Except.ok store
  | Except.error e =>
    if strContains e.message "Unexpected end of input" then Except.ok []
    else Except.error e

/-- Counterexample to C10 as stated: a `.local_store` file whose content
parses successfully to the empty object also yields the empty mapping, so
the empty mapping is not returned *exactly* when parsing fails with an
Unexpected-end-of-input error — it also arises on this successful read. -/
theorem C10_getLocalStore_counterexample :
    getLocalStore (Except.ok []) = Except.ok []
    ∧ (Except.ok ([] : LocalStore) : Except JsError LocalStore)
        ≠ Except.error ⟨"Unexpected end of input"⟩ :=
  ⟨rfl, fun h => Except.noConfusion h⟩

/-- **C10 (amended).** `getLocalStore` returns the empty mapping when the
read fails with a message containing 'Unexpected end of input' (empty or
truncated file); every other read failure — including the file not existing
— is rethrown; a successful read is returned as is, so a file parsing to an
empty object also yields the empty mapping. -/
theorem C10_getLocalStore_amended (e : JsError) (store : LocalStore) :
    (strContains e.message "Unexpected end of input" = true →
      getLocalStore (Except.error e) = Except.ok [])
    ∧ (strContains e.message "Unexpected end of input" = false →
      getLocalStore (Except.error e) = Except.error e)
    ∧ getLocalStore (Except.ok store) = Except.ok store := by
  refine ⟨?_, ?_, rfl⟩ <;> intro h <;> simp [getLocalStore, h]

/-- Witness for the amended C10: a truncated-file parse error yields the
empty store; a missing-file error is rethrown. -/
theorem C10_getLocalStore_amended_witness :
    getLocalStore (Except.error ⟨"Unexpected end of input"⟩) = Except.ok []
    ∧ getLocalStore (Except.error ⟨"ENOENT: no such file or directory"⟩)
        = Except.error ⟨"ENOENT: no such file or directory"⟩ :=
  ⟨(C10_getLocalStore_amended ⟨"Unexpected end of input"⟩ []).1 (by decide),
   (C10_getLocalStore_amended ⟨"ENOENT: no such file or directory"⟩ []).2.1 (by decide)⟩

/-!
### Metadata index selection
(`Project.prototype.getOrgMetadataIndexWithSelections`, project.js,
lines 985-1079)

The index is the parsed `.org_metadata` array: a tree of nodes with `id`,
`xmlName`, `select` and visibility flags, and children.  The wildcard
cascade and the member/child selection loops live in project.js; the
`IndexService` helpers (`setChecked`, `ensureParentsAreCheckedIfNecessary`,
`setVisibility`) are repository code not under `src/` and are modelled from
the spec where marked.
-/

/-- One org-metadata index node. -/
inductive MNode : Type where
  | mk : String → String → Bool → Bool → List MNode → MNode

def MNode.id : MNode → String
  | .mk i _ _ _ _ => i

def MNode.xmlName : MNode → String
  | .mk _ x _ _ _ => x

def MNode.select : MNode → Bool
  | .mk _ _ s _ _ => s

def MNode.visible : MNode → Bool
  | .mk _ _ _ v _ => v

def MNode.children : MNode → List MNode
  | .mk _ _ _ _ cs => cs

/-- A package subscription value: wildcard or explicit member list. -/
inductive PkgMembers : Type where
  | wildcard : PkgMembers
  | members : List String → PkgMembers

/-- Replace the first matching node in place
(`_.find` followed by in-place mutation). -/
def markFirst (p : MNode → Bool) (f : MNode → MNode) : List MNode → List MNode
  | [] => []
  | n :: rest => if p n then f n :: rest else n :: markFirst p f rest

/-- The wildcard cascade (project.js lines 1022-1027): set
`select := true` on every child of the node. -/
def selectChildren : MNode → MNode
  | .mk i x s v cs => .mk i x s v (cs.map (fun c =>
      match c with
      | .mk ci cx _ cv ccs => .mk ci cx true cv ccs))

/-- The child-type cascade (project.js lines 1041-1050): select every child
of the node and every grandchild below them. -/
def selectChildrenAndGrandchildren : MNode → MNode
  | .mk i x s v cs => .mk i x s v (cs.map (fun c =>
      match c with
      | .mk ci cx _ cv ccs => .mk ci cx true cv (ccs.map (fun g =>
          match g with
          | .mk gi gx _ gv gcs => .mk gi gx true gv gcs))))

/-- Apply a function to a node's child list. -/
def MNode.withChildren : MNode → (List MNode → List MNode) → MNode
  | .mk i x s v cs, f => .mk i x s v (f cs)

/-- `member.replace(/\//, '.')`: replace the first slash by a dot. -/
def replaceFirstSlash (s : String) : String :=
  match splitOnChar '/' s.data with
  | [] => s
  | [_] => s
  | h :: rest => String.mk (h ++ '.' :: List.intercalate ['/'] rest)

/-- `member.split('.')[0]`. -/
def splitDotFirst (s : String) : String :=
  match splitOnChar '.' s.data with
  | first :: _ => String.mk first
  | [] => ""

/-- One explicit package member (project.js lines 1029-1057): folder-scoped
types join folder and leaf with a dot; parent/child types build a compound
id; types with nested children select the indexed node's children and
grandchildren and push its id when the type is indexed; all other types use
a flat `type.member` id. -/
def processMember (T : String) (mt : MetadataType) (pmt : Option MetadataType)
    (st : List MNode × List String) (member : String) :
    List MNode × List String :=
  let md := st.1
  let ids := st.2
  if mt.inFolder then
    (md, ids ++ [T ++ "." ++ replaceFirstSlash member])
  else
    match pmt with
    | some parent =>
      (md, ids ++ [parent.xmlName ++ "." ++ splitDotFirst member ++ "." ++
        mt.tagName ++ "." ++ splitDotSecond member])
    | none =>
      if mt.childXmlNames.isSome then
        if md.any (fun n => n.xmlName == T) then
          (markFirst (fun n => n.xmlName == T)
            (fun n => n.withChildren (markFirst
              (fun c => c.id == T ++ "." ++ member)
              selectChildrenAndGrandchildren)) md,
           ids ++ [T ++ "." ++ member])
        else (md, ids)
      else (md, ids ++ [T ++ "." ++ member])

/-- One subscription entry of the `_.forOwn` loop (project.js lines
1012-1059).  An unrecognized type calls `reject` — which settles the promise
once but does not stop the loop — recorded as the first error. -/
def processEntry (helper : String → Option MetadataType)
    (st : List MNode × List String × Option String)
    (entry : String × PkgMembers) :
    List MNode × List String × Option String :=
  let md := st.1
  let ids := st.2.1
  let err := st.2.2
  match helper entry.1 with
  | none =>
    (md, ids,
      match err with
      | some e0 => some e0
      | none => some ("Unrecognized package.xml metadata type: " ++ entry.1))
  | some mt =>
    match entry.2 with
    | PkgMembers.wildcard =>
      (markFirst (fun n => n.xmlName == entry.1) selectChildren md,
       ids ++ [entry.1], err)
    | PkgMembers.members ms =>
      let res := ms.foldl (processMember entry.1 mt (mt.parentXmlName.bind helper))
        (md, ids)
      (res.1, res.2, err)

mutual
/-- Modelled from the spec: `IndexService.setChecked` (repository code not
under `src/`) marks every node of the tree whose id is among `ids` as
selected. -/
def setCheckedNode (ids : List String) : MNode → MNode
  | .mk i x s v cs => .mk i x (s || ids.contains i) v (setCheckedList ids cs)
def setCheckedList (ids : List String) : List MNode → List MNode
  | [] => []
  | c :: cs => setCheckedNode ids c :: setCheckedList ids cs
end

mutual
/-- Modelled from the spec: `IndexService.ensureParentsAreCheckedIfNecessary`
(repository code not under `src/`) forces every ancestor of a selected
descendant to be selected. -/
def ensureParentsNode : MNode → MNode
  | .mk i x s v cs =>
    let cs2 := ensureParentsList cs
    .mk i x (s || cs2.any (fun c => c.select)) v cs2
def ensureParentsList : List MNode → List MNode
  | [] => []
  | c :: cs => ensureParentsNode c :: ensureParentsList cs
end

mutual
/-- Modelled from the spec: `IndexService.setVisibility` (repository code
not under `src/`) sets the visibility flag from the keyword, independent of
selection. -/
def setVisibilityNode (kw : String) : MNode → MNode
  | .mk i x s v cs => .mk i x s (v || strContains i kw) (setVisibilityList kw cs)
def setVisibilityList (kw : String) : List MNode → List MNode
  | [] => []
  | c :: cs => setVisibilityNode kw c :: setVisibilityList kw cs
end

/-- `Project.prototype.getOrgMetadataIndexWithSelections`, on the path where
`.org_metadata` exists and parses to `md0`; `helper` is the external
metadata registry, `idsArg` the optional explicit id override, `keyword` the
optional visibility filter, `pkgSub` the package subscription driving
selection. -/
def getOrgMetadataIndexWithSelections (helper : String → Option MetadataType)
    (md0 : List MNode) (pkgSub : List (String × PkgMembers))
    (idsArg : Option (List String)) (keyword : Option String) :
    Except String (List MNode) :=
  let folded :=
    match idsArg with
    | some ids => (md0, ids, none)
    | none => pkgSub.foldl (processEntry helper) (md0, [], none)
  match folded.2.2 with
  | some e => Except.error e
  | none =>
    let ensured := ensureParentsList (setCheckedList folded.2.1 folded.1)
    match keyword with
    | some kw => Except.ok (setVisibilityList kw ensured)
    | none => Except.ok ensured

@[simp] theorem MNode.id_mk (i x : String) (s v : Bool) (cs : List MNode) :
    (MNode.mk i x s v cs).id = i := rfl

@[simp] theorem MNode.xmlName_mk (i x : String) (s v : Bool) (cs : List MNode) :
    (MNode.mk i x s v cs).xmlName = x := rfl

@[simp] theorem MNode.select_mk (i x : String) (s v : Bool) (cs : List MNode) :
    (MNode.mk i x s v cs).select = s := rfl

@[simp] theorem MNode.children_mk (i x : String) (s v : Bool) (cs : List MNode) :
    (MNode.mk i x s v cs).children = cs := rfl

/-- Depth-two monotonicity between index states: id and xmlName preserved,
selection only ever turns on, children correspond with selection turning
on. -/
def mono2 (a b : MNode) : Prop :=
  a.id = b.id ∧ a.xmlName = b.xmlName ∧ (a.select = true → b.select = true) ∧
    List.Forall₂ (fun c d : MNode => c.select = true → d.select = true)
      a.children b.children

theorem mono2_refl (n : MNode) : mono2 n n :=
  ⟨rfl, rfl, id, List.forall₂_same.2 (fun _ _ => id)⟩

theorem forall2_imp_trans {l1 l2 l3 : List MNode}
    (h1 : List.Forall₂ (fun c d : MNode => c.select = true → d.select = true) l1 l2)
    (h2 : List.Forall₂ (fun c d : MNode => c.select = true → d.select = true) l2 l3) :
    List.Forall₂ (fun c d : MNode => c.select = true → d.select = true) l1 l3 := by
  induction h1 generalizing l3 with
  | nil =>
    cases h2
    exact List.Forall₂.nil
  | cons hab h1t ih =>
    cases h2 with
    | cons hbc h2t => exact List.Forall₂.cons (fun h => hbc (hab h)) (ih h2t)

theorem mono2_trans {a b c : MNode} (h1 : mono2 a b) (h2 : mono2 b c) :
    mono2 a c :=
  ⟨h1.1.trans h2.1, h1.2.1.trans h2.2.1, fun h => h2.2.2.1 (h1.2.2.1 h),
    forall2_imp_trans h1.2.2.2 h2.2.2.2⟩

theorem Mono2_trans {l1 l2 l3 : List MNode} (h1 : List.Forall₂ mono2 l1 l2)
    (h2 : List.Forall₂ mono2 l2 l3) : List.Forall₂ mono2 l1 l3 := by
  induction h1 generalizing l3 with
  | nil =>
    cases h2
    exact List.Forall₂.nil
  | cons hab h1t ih =>
    cases h2 with
    | cons hbc h2t => exact List.Forall₂.cons (mono2_trans hab hbc) (ih h2t)

theorem Mono2_refl (l : List MNode) : List.Forall₂ mono2 l l :=
  List.forall₂_same.2 (fun n _ => mono2_refl n)

theorem Mono2_markFirst (p : MNode → Bool) (f : MNode → MNode)
    (hf : ∀ n, mono2 n (f n)) :
    ∀ l : List MNode, List.Forall₂ mono2 l (markFirst p f l) := by
  intro l
  induction l with
  | nil => exact List.Forall₂.nil
  | cons n rest ih =>
    unfold markFirst
    split
    · exact List.Forall₂.cons (hf n) (Mono2_refl rest)
    · exact List.Forall₂.cons (mono2_refl n) ih

theorem mono2_selectChildren (n : MNode) : mono2 n (selectChildren n) := by
  cases n with
  | mk i x s v cs =>
    refine ⟨rfl, rfl, id, ?_⟩
    simp only [selectChildren, MNode.children_mk]
    induction cs with
    | nil => exact List.Forall₂.nil
    | cons c rest ih =>
      rw [List.map_cons]
      refine List.Forall₂.cons ?_ ih
      cases c with
      | mk ci cx csel cv ccs =>
        intro _
        rfl

theorem mono2_withChildren_markFirst (n : MNode) (p : MNode → Bool) :
    mono2 n (n.withChildren (markFirst p selectChildrenAndGrandchildren)) := by
  cases n with
  | mk i x s v cs =>
    refine ⟨rfl, rfl, id, ?_⟩
    simp only [MNode.withChildren, MNode.children_mk]
    induction cs with
    | nil => exact List.Forall₂.nil
    | cons c rest ih =>
      unfold markFirst
      split
      · refine List.Forall₂.cons ?_ (List.forall₂_same.2 (fun _ _ => id))
        cases c with
        | mk ci cx csel cv ccs => exact id
      · exact List.Forall₂.cons id ih

theorem select_setCheckedNode (ids : List String) (n : MNode) :
    (setCheckedNode ids n).select = (n.select || ids.contains n.id) := by
  cases n
  rfl

theorem id_setCheckedNode (ids : List String) (n : MNode) :
    (setCheckedNode ids n).id = n.id := by
  cases n
  rfl

theorem xmlName_setCheckedNode (ids : List String) (n : MNode) :
    (setCheckedNode ids n).xmlName = n.xmlName := by
  cases n
  rfl

theorem Mono2_setCheckedList (ids : List String) :
    ∀ l : List MNode, List.Forall₂ mono2 l (setCheckedList ids l) := by
  intro l
  induction l with
  | nil => exact List.Forall₂.nil
  | cons n rest ih =>
    rw [setCheckedList]
    refine List.Forall₂.cons ?_ ih
    refine ⟨(id_setCheckedNode ids n).symm, (xmlName_setCheckedNode ids n).symm, ?_, ?_⟩
    · intro h
      rw [select_setCheckedNode, h, Bool.true_or]
    · cases n with
      | mk i x s v cs =>
        show List.Forall₂ _ cs (setCheckedList ids cs)
        induction cs with
        | nil => exact List.Forall₂.nil
        | cons c crest cih =>
          rw [setCheckedList]
          refine List.Forall₂.cons ?_ cih
          intro h
          rw [select_setCheckedNode, h, Bool.true_or]

theorem select_ensureParentsNode (n : MNode) :
    (ensureParentsNode n).select
      = (n.select || (ensureParentsList n.children).any (fun c => c.select)) := by
  cases n
  rfl

theorem id_ensureParentsNode (n : MNode) : (ensureParentsNode n).id = n.id := by
  cases n
  rfl

theorem xmlName_ensureParentsNode (n : MNode) :
    (ensureParentsNode n).xmlName = n.xmlName := by
  cases n
  rfl

theorem Mono2_ensureParentsList :
    ∀ l : List MNode, List.Forall₂ mono2 l (ensureParentsList l) := by
  intro l
  induction l with
  | nil => exact List.Forall₂.nil
  | cons n rest ih =>
    rw [ensureParentsList]
    refine List.Forall₂.cons ?_ ih
    refine ⟨(id_ensureParentsNode n).symm, (xmlName_ensureParentsNode n).symm, ?_, ?_⟩
    · intro h
      rw [select_ensureParentsNode, h, Bool.true_or]
    · cases n with
      | mk i x s v cs =>
        show List.Forall₂ _ cs (ensureParentsList cs)
        induction cs with
        | nil => exact List.Forall₂.nil
        | cons c crest cih =>
          rw [ensureParentsList]
          refine List.Forall₂.cons ?_ cih
          intro h
          rw [select_ensureParentsNode, h, Bool.true_or]

theorem select_setVisibilityNode (kw : String) (n : MNode) :
    (setVisibilityNode kw n).select = n.select := by
  cases n
  rfl

theorem id_setVisibilityNode (kw : String) (n : MNode) :
    (setVisibilityNode kw n).id = n.id := by
  cases n
  rfl

theorem xmlName_setVisibilityNode (kw : String) (n : MNode) :
    (setVisibilityNode kw n).xmlName = n.xmlName := by
  cases n
  rfl

theorem Mono2_setVisibilityList (kw : String) :
    ∀ l : List MNode, List.Forall₂ mono2 l (setVisibilityList kw l) := by
  intro l
  induction l with
  | nil => exact List.Forall₂.nil
  | cons n rest ih =>
    rw [setVisibilityList]
    refine List.Forall₂.cons ?_ ih
    refine ⟨(id_setVisibilityNode kw n).symm, (xmlName_setVisibilityNode kw n).symm, ?_, ?_⟩
    · intro h
      rw [select_setVisibilityNode]
      exact h
    · cases n with
      | mk i x s v cs =>
        show List.Forall₂ _ cs (setVisibilityList kw cs)
        induction cs with
        | nil => exact List.Forall₂.nil
        | cons c crest cih =>
          rw [setVisibilityList]
          refine List.Forall₂.cons ?_ cih
          intro h
          rw [select_setVisibilityNode]
          exact h

/-- All children of a node are selected. -/
def allChildrenSelected (n : MNode) : Prop := ∀ c ∈ n.children, c.select = true

/-- Every node of xmlName `T` has all children selected. -/
def Qsel (T : String) (md : List MNode) : Prop :=
  ∀ n ∈ md, n.xmlName = T → allChildrenSelected n

/-- Every node of xmlName `T` is selected. -/
def Rsel (T : String) (md : List MNode) : Prop :=
  ∀ n ∈ md, n.xmlName = T → n.select = true

theorem forall2_selected {l1 l2 : List MNode}
    (h : List.Forall₂ (fun c d : MNode => c.select = true → d.select = true) l1 l2)
    (hall : ∀ c ∈ l1, c.select = true) : ∀ d ∈ l2, d.select = true := by
  induction h with
  | nil =>
    intro d hd
    cases hd
  | cons hcd ht ih =>
    intro d hd
    rcases List.mem_cons.1 hd with rfl | hd2
    · exact hcd (hall _ (List.mem_cons_self _ _))
    · exact ih (fun c hc => hall c (List.mem_cons_of_mem _ hc)) d hd2

theorem Qsel_of_mono2 {T : String} : ∀ {l1 l2 : List MNode},
    List.Forall₂ mono2 l1 l2 → Qsel T l1 → Qsel T l2 := by
  intro l1 l2 h
  induction h with
  | nil =>
    intro _ n hn
    cases hn
  | cons hab ht ih =>
    intro hq n hn hx
    rcases List.mem_cons.1 hn with rfl | hn2
    · have hq1 := hq _ (List.mem_cons_self _ _) (hab.2.1.trans hx)
      exact forall2_selected hab.2.2.2 hq1
    · exact ih (fun m hm hxm => hq m (List.mem_cons_of_mem _ hm) hxm) n hn2 hx

theorem Rsel_of_mono2 {T : String} : ∀ {l1 l2 : List MNode},
    List.Forall₂ mono2 l1 l2 → Rsel T l1 → Rsel T l2 := by
  intro l1 l2 h
  induction h with
  | nil =>
    intro _ n hn
    cases hn
  | cons hab ht ih =>
    intro hr n hn hx
    rcases List.mem_cons.1 hn with rfl | hn2
    · exact hab.2.2.1 (hr _ (List.mem_cons_self _ _) (hab.2.1.trans hx))
    · exact ih (fun m hm hxm => hr m (List.mem_cons_of_mem _ hm) hxm) n hn2 hx

theorem xmlNames_of_mono2 : ∀ {l1 l2 : List MNode},
    List.Forall₂ mono2 l1 l2 → l2.map MNode.xmlName = l1.map MNode.xmlName := by
  intro l1 l2 h
  induction h with
  | nil => rfl
  | cons hab ht ih =>
    rw [List.map_cons, List.map_cons, ih, hab.2.1]

theorem idxml_of_mono2 : ∀ {l1 l2 : List MNode},
    List.Forall₂ mono2 l1 l2 → (∀ n ∈ l1, n.id = n.xmlName) →
    ∀ n ∈ l2, n.id = n.xmlName := by
  intro l1 l2 h
  induction h with
  | nil =>
    intro _ n hn
    cases hn
  | cons hab ht ih =>
    intro hid n hn
    rcases List.mem_cons.1 hn with rfl | hn2
    · rw [← hab.1, ← hab.2.1]
      exact hid _ (List.mem_cons_self _ _)
    · exact ih (fun m hm => hid m (List.mem_cons_of_mem _ hm)) n hn2

theorem allChildrenSelected_selectChildren (n : MNode) :
    allChildrenSelected (selectChildren n) := by
  cases n with
  | mk i x s v cs =>
    intro c hc
    simp only [selectChildren, MNode.children_mk] at hc
    rcases List.mem_map.1 hc with ⟨c0, _, rfl⟩
    cases c0
    rfl

/-- Q-establishment: the wildcard cascade makes every node of xmlName `T`
(at most one, by Nodup) have all children selected. -/
theorem Qsel_markFirst_selectChildren (T : String) :
    ∀ l : List MNode, (l.map MNode.xmlName).Nodup →
    Qsel T (markFirst (fun n => n.xmlName == T) selectChildren l) := by
  intro l
  induction l with
  | nil =>
    intro _ n hn
    cases hn
  | cons a rest ih =>
    intro hnodup
    rw [List.map_cons, List.nodup_cons] at hnodup
    unfold markFirst
    by_cases hp : (a.xmlName == T) = true
    · rw [if_pos hp]
      intro n hn hx
      rcases List.mem_cons.1 hn with rfl | hn2
      · exact allChildrenSelected_selectChildren a
      · exfalso
        rw [beq_iff_eq] at hp
        exact hnodup.1 (by
          rw [hp, ← hx]
          exact List.mem_map_of_mem _ hn2)
    · rw [if_neg hp]
      intro n hn hx
      rcases List.mem_cons.1 hn with rfl | hn2
      · exact absurd (beq_iff_eq.2 hx) hp
      · exact ih hnodup.2 n hn2 hx

theorem Mono2_processMember (T : String) (mt : MetadataType)
    (pmt : Option MetadataType) (st : List MNode × List String) (m : String) :
    List.Forall₂ mono2 st.1 (processMember T mt pmt st m).1 := by
  unfold processMember
  dsimp only
  split
  · exact Mono2_refl _
  · split
    · exact Mono2_refl _
    · split
      · split
        · exact Mono2_markFirst _ _ (fun n => mono2_withChildren_markFirst n _) st.1
        · exact Mono2_refl _
      · exact Mono2_refl _

theorem Mono2_foldl_members (T : String) (mt : MetadataType)
    (pmt : Option MetadataType) :
    ∀ (ms : List String) (st : List MNode × List String),
      List.Forall₂ mono2 st.1 ((ms.foldl (processMember T mt pmt) st)).1 := by
  intro ms
  induction ms with
  | nil =>
    intro st
    exact Mono2_refl _
  | cons m rest ih =>
    intro st
    rw [List.foldl_cons]
    exact Mono2_trans (Mono2_processMember T mt pmt st m) (ih _)

theorem Mono2_processEntry (helper : String → Option MetadataType)
    (st : List MNode × List String × Option String) (e : String × PkgMembers) :
    List.Forall₂ mono2 st.1 (processEntry helper st e).1 := by
  unfold processEntry
  dsimp only
  split
  · exact Mono2_refl _
  · split
    · exact Mono2_markFirst _ _ mono2_selectChildren st.1
    · show List.Forall₂ mono2 st.1 ((List.foldl _ (st.1, st.2.1) _)).1
      exact Mono2_foldl_members _ _ _ _ (st.1, st.2.1)

theorem Mono2_foldl (helper : String → Option MetadataType) :
    ∀ (entries : List (String × PkgMembers))
      (st : List MNode × List String × Option String),
      List.Forall₂ mono2 st.1 ((entries.foldl (processEntry helper) st)).1 := by
  intro entries
  induction entries with
  | nil =>
    intro st
    exact Mono2_refl _
  | cons e rest ih =>
    intro st
    rw [List.foldl_cons]
    exact Mono2_trans (Mono2_processEntry helper st e) (ih _)

theorem ids_mono_processMember (T : String) (mt : MetadataType)
    (pmt : Option MetadataType) (st : List MNode × List String) (m : String) :
    ∀ x ∈ st.2, x ∈ (processMember T mt pmt st m).2 := by
  intro x hx
  unfold processMember
  dsimp only
  split
  · exact List.mem_append_left _ hx
  · split
    · exact List.mem_append_left _ hx
    · split
      · split
        · exact List.mem_append_left _ hx
        · exact hx
      · exact List.mem_append_left _ hx

theorem ids_mono_members (T : String) (mt : MetadataType)
    (pmt : Option MetadataType) :
    ∀ (ms : List String) (st : List MNode × List String),
      ∀ x ∈ st.2, x ∈ ((ms.foldl (processMember T mt pmt) st)).2 := by
  intro ms
  induction ms with
  | nil =>
    intro st x hx
    exact hx
  | cons m rest ih =>
    intro st x hx
    rw [List.foldl_cons]
    exact ih _ x (ids_mono_processMember T mt pmt st m x hx)

theorem ids_mono_processEntry (helper : String → Option MetadataType)
    (st : List MNode × List String × Option String) (e : String × PkgMembers) :
    ∀ x ∈ st.2.1, x ∈ (processEntry helper st e).2.1 := by
  intro x hx
  unfold processEntry
  dsimp only
  split
  · exact hx
  · split
    · exact List.mem_append_left _ hx
    · exact ids_mono_members _ _ _ _ _ x hx

theorem ids_mono_foldl (helper : String → Option MetadataType) :
    ∀ (entries : List (String × PkgMembers))
      (st : List MNode × List String × Option String),
      ∀ x ∈ st.2.1, x ∈ ((entries.foldl (processEntry helper) st)).2.1 := by
  intro entries
  induction entries with
  | nil =>
    intro st x hx
    exact hx
  | cons e rest ih =>
    intro st x hx
    rw [List.foldl_cons]
    exact ih _ x (ids_mono_processEntry helper st e x hx)

theorem err_processEntry (helper : String → Option MetadataType)
    (st : List MNode × List String × Option String) (e : String × PkgMembers)
    (h : (processEntry helper st e).2.2 = none) :
    st.2.2 = none ∧ (helper e.1).isSome = true := by
  cases hh : helper e.1 with
  | none =>
    exfalso
    have h2 : (processEntry helper st e).2.2 =
        (match st.2.2 with
         | some e0 => some e0
         | none => some ("Unrecognized package.xml metadata type: " ++ e.1)) := by
      unfold processEntry
      rw [hh]
    rw [h2] at h
    cases hst : st.2.2 with
    | none =>
      rw [hst] at h
      exact Option.noConfusion h
    | some e0 =>
      rw [hst] at h
      exact Option.noConfusion h
  | some mt =>
    refine ⟨?_, rfl⟩
    have h2 : (processEntry helper st e).2.2 = st.2.2 := by
      unfold processEntry
      rw [hh]
      cases e.2 with
      | wildcard => rfl
      | members ms => rfl
    rw [h2] at h
    exact h

theorem err_foldl (helper : String → Option MetadataType) :
    ∀ (entries : List (String × PkgMembers))
      (st : List MNode × List String × Option String),
      ((entries.foldl (processEntry helper) st)).2.2 = none → st.2.2 = none := by
  intro entries
  induction entries with
  | nil =>
    intro st h
    exact h
  | cons e rest ih =>
    intro st h
    rw [List.foldl_cons] at h
    exact (err_processEntry helper st e (ih _ h)).1

theorem processEntry_wildcard (helper : String → Option MetadataType)
    (st : List MNode × List String × Option String) (T : String)
    (mt : MetadataType) (hh : helper T = some mt) :
    processEntry helper st (T, PkgMembers.wildcard) =
      (markFirst (fun n => n.xmlName == T) selectChildren st.1,
       st.2.1 ++ [T], st.2.2) := by
  unfold processEntry
  rw [show helper (T, PkgMembers.wildcard).1 = some mt from hh]

theorem Rsel_setChecked (T : String) (ids : List String) (hT : T ∈ ids) :
    ∀ md : List MNode, (∀ n ∈ md, n.id = n.xmlName) →
    Rsel T (setCheckedList ids md) := by
  intro md
  induction md with
  | nil =>
    intro _ n hn
    cases hn
  | cons a rest ih =>
    intro hid
    rw [setCheckedList]
    intro n hn hx
    rcases List.mem_cons.1 hn with rfl | hn2
    · rw [select_setCheckedNode]
      rw [xmlName_setCheckedNode] at hx
      have hida : a.id = T := by
        rw [hid a (List.mem_cons_self _ _), hx]
      rw [hida]
      have hc : ids.contains T = true := by
        simpa using hT
      rw [hc, Bool.or_true]
    · exact ih (fun m hm => hid m (List.mem_cons_of_mem _ hm)) n hn2 hx

/-- The idsArg-absent path of `getOrgMetadataIndexWithSelections`,
flattened. -/
theorem getOrg_eq_none_ids (helper : String → Option MetadataType)
    (md0 : List MNode) (pkgSub : List (String × PkgMembers))
    (keyword : Option String) :
    getOrgMetadataIndexWithSelections helper md0 pkgSub none keyword =
      (match (pkgSub.foldl (processEntry helper) (md0, [], none)).2.2 with
       | some e => Except.error e
       | none =>
         match keyword with
         | some kw => Except.ok (setVisibilityList kw (ensureParentsList
             (setCheckedList
               ((pkgSub.foldl (processEntry helper) (md0, [], none))).2.1
               ((pkgSub.foldl (processEntry helper) (md0, [], none))).1)))
         | none => Except.ok (ensureParentsList
             (setCheckedList
               ((pkgSub.foldl (processEntry helper) (md0, [], none))).2.1
               ((pkgSub.foldl (processEntry helper) (md0, [], none))).1))) := rfl

/-- **C9.** For every package subscription containing a wildcard entry for
type `T`, whenever the descriptor-driven selection (no explicit id override)
produces an index, every node of that index whose `xmlName` equals `T` is
selected and all of that node's children are selected.  Hypotheses: the
top-level type nodes carry pairwise-distinct `xmlName`s and use the
`xmlName` as `id` (the shape the indexer produces, with ids like
`ApexClass` at type level). -/
theorem C9_getOrgMetadataIndexWithSelections
    (helper : String → Option MetadataType) (md0 : List MNode)
    (pkgSub : List (String × PkgMembers)) (keyword : Option String) (T : String)
    (result : List MNode)
    (hmem : (T, PkgMembers.wildcard) ∈ pkgSub)
    (hnodup : (md0.map MNode.xmlName).Nodup)
    (hid : ∀ n ∈ md0, n.id = n.xmlName)
    (hr : getOrgMetadataIndexWithSelections helper md0 pkgSub none keyword
      = Except.ok result) :
    ∀ n ∈ result, n.xmlName = T →
      n.select = true ∧ ∀ c ∈ n.children, c.select = true := by
  rcases List.append_of_mem hmem with ⟨pre, post, rfl⟩
  rw [getOrg_eq_none_ids, List.foldl_append, List.foldl_cons] at hr
  set st1 := pre.foldl (processEntry helper) (md0, ([] : List String),
    (none : Option String)) with hst1
  set stW := processEntry helper st1 (T, PkgMembers.wildcard) with hstW
  set st3 := post.foldl (processEntry helper) stW with hst3
  cases herr : st3.2.2 with
  | some e =>
    rw [herr] at hr
    exact absurd hr (fun hcon => Except.noConfusion hcon)
  | none =>
    rw [herr] at hr
    have h1 : stW.2.2 = none := err_foldl helper post stW herr
    have h2 := err_processEntry helper st1 (T, PkgMembers.wildcard) h1
    cases hmt : helper T with
    | none =>
      exfalso
      have h3 := h2.2
      rw [show helper (T, PkgMembers.wildcard).1 = none from hmt] at h3
      exact Bool.noConfusion h3
    | some mt =>
      have hW : stW = (markFirst (fun n => n.xmlName == T) selectChildren st1.1,
          st1.2.1 ++ [T], st1.2.2) := processEntry_wildcard helper st1 T mt hmt
      have hm_pre : List.Forall₂ mono2 md0 st1.1 :=
        Mono2_foldl helper pre (md0, ([] : List String), (none : Option String))
      have hnodup1 : (st1.1.map MNode.xmlName).Nodup := by
        rw [xmlNames_of_mono2 hm_pre]
        exact hnodup
      have hqW : Qsel T stW.1 := by
        rw [hW]
        exact Qsel_markFirst_selectChildren T st1.1 hnodup1
      have hm_W : List.Forall₂ mono2 st1.1 stW.1 := by
        rw [hW]
        exact Mono2_markFirst _ _ mono2_selectChildren st1.1
      have hm_post : List.Forall₂ mono2 stW.1 st3.1 := Mono2_foldl helper post stW
      have hq3 : Qsel T st3.1 := Qsel_of_mono2 hm_post hqW
      have hT3 : T ∈ st3.2.1 := by
        refine ids_mono_foldl helper post stW T ?_
        rw [hW]
        exact List.mem_append_right _ (List.mem_singleton.2 rfl)
      have hid3 : ∀ n ∈ st3.1, n.id = n.xmlName :=
        idxml_of_mono2 (Mono2_trans hm_pre (Mono2_trans hm_W hm_post)) hid
      have hq4 : Qsel T (setCheckedList st3.2.1 st3.1) :=
        Qsel_of_mono2 (Mono2_setCheckedList st3.2.1 st3.1) hq3
      have hr4 : Rsel T (setCheckedList st3.2.1 st3.1) :=
        Rsel_setChecked T st3.2.1 hT3 st3.1 hid3
      have hq5 : Qsel T (ensureParentsList (setCheckedList st3.2.1 st3.1)) :=
        Qsel_of_mono2 (Mono2_ensureParentsList _) hq4
      have hr5 : Rsel T (ensureParentsList (setCheckedList st3.2.1 st3.1)) :=
        Rsel_of_mono2 (Mono2_ensureParentsList _) hr4
      cases keyword with
      | none =>
        have hres := Except.ok.inj hr
        intro n hn hx
        rw [← hres] at hn
        exact ⟨hr5 n hn hx, hq5 n hn hx⟩
      | some kw =>
        have hres := Except.ok.inj hr
        have hq6 : Qsel T (setVisibilityList kw
            (ensureParentsList (setCheckedList st3.2.1 st3.1))) :=
          Qsel_of_mono2 (Mono2_setVisibilityList kw _) hq5
        have hr6 : Rsel T (setVisibilityList kw
            (ensureParentsList (setCheckedList st3.2.1 st3.1))) :=
          Rsel_of_mono2 (Mono2_setVisibilityList kw _) hr5
        intro n hn hx
        rw [← hres] at hn
        exact ⟨hr6 n hn hx, hq6 n hn hx⟩

/-- Witness for C9: a one-type index with a wildcard subscription; the
ApexClass node and its only child come out selected. -/
theorem C9_getOrgMetadataIndexWithSelections_witness :
    getOrgMetadataIndexWithSelections
        (fun s => if s = "ApexClass" then
            some ⟨"ApexClass", "cls", "classes", "", false, none, none⟩ else none)
        [MNode.mk "ApexClass" "ApexClass" false false
          [MNode.mk "ApexClass.Foo" "" false false []]]
        [("ApexClass", PkgMembers.wildcard)] none none
      = Except.ok [MNode.mk "ApexClass" "ApexClass" true false
          [MNode.mk "ApexClass.Foo" "" true false []]]
    ∧ (MNode.mk "ApexClass" "ApexClass" true false
        [MNode.mk "ApexClass.Foo" "" true false []]).select = true
    ∧ ((MNode.mk "ApexClass" "ApexClass" true false
        [MNode.mk "ApexClass.Foo" "" true false []]).children.all
          MNode.select) = true := by
  have hrun : getOrgMetadataIndexWithSelections
      (fun s => if s = "ApexClass" then
          some ⟨"ApexClass", "cls", "classes", "", false, none, none⟩ else none)
      [MNode.mk "ApexClass" "ApexClass" false false
        [MNode.mk "ApexClass.Foo" "" false false []]]
      [("ApexClass", PkgMembers.wildcard)] none none
    = Except.ok [MNode.mk "ApexClass" "ApexClass" true false
        [MNode.mk "ApexClass.Foo" "" true false []]] := rfl
  have h := C9_getOrgMetadataIndexWithSelections
    (fun s => if s = "ApexClass" then
        some ⟨"ApexClass", "cls", "classes", "", false, none, none⟩ else none)
    [MNode.mk "ApexClass" "ApexClass" false false
      [MNode.mk "ApexClass.Foo" "" false false []]]
    [("ApexClass", PkgMembers.wildcard)] none "ApexClass"
    [MNode.mk "ApexClass" "ApexClass" true false
      [MNode.mk "ApexClass.Foo" "" true false []]]
    (List.mem_cons_self _ _)
    (by
      rw [List.map_cons]
      exact List.nodup_singleton _)
    (by
      intro n hn
      rw [List.mem_singleton] at hn
      rw [hn]
      rfl)
    hrun
    (MNode.mk "ApexClass" "ApexClass" true false
      [MNode.mk "ApexClass.Foo" "" true false []])
    (List.mem_cons_self _ _) rfl
  exact ⟨hrun, h.1, List.all_eq_true.2 (fun c hc => h.2 c hc)⟩

end MavensMate
